import Mathlib

/-!
Verification development for the kubekey task executor
(`pkg/manager/executor`-style core: `Exec`, `execBlock`, `executeTask`,
`execLoop`, `executeModule`, `mergeVariable`).

The Go source is shallowly embedded: the stateful executor becomes explicit
state passing over an `ExecState`, and every externally observable action
(pipeline phase writes, task creation, module invocation, loop-item clearing,
host-result emission) is recorded in an event trace so that ordering claims
can be stated.  External collaborators of the executor (the variable store,
the template engine, the module registry, the persistence layer) are not part
of the source file; they are modelled from the spec where the claims need
them, and each such definition carries a doc comment saying so.

Concurrency: the source runs the per-host units of one task in goroutines;
each unit only touches its own host's overlay of the variable store, so the
embedding sequentialises the units in host order (one admissible
interleaving / arrival order).
-/

namespace KubekeyExec

/-- JSON-like values that flow through the variable store, module arguments
and loop items.  `strMap` covers the `{stdout, stderr}` register records. -/
inductive Value where
  | null
  | bool (b : Bool)
  | str (s : String)
  | num (n : Nat)
  | strMap (fields : List (String × String))
  deriving DecidableEq, Repr

/-- A variable scope: an association list from variable names to values. -/
abbrev Scope := List (String × Value)

/-- Look a key up in a scope. -/
def scopeGet (s : Scope) (k : String) : Option Value :=
  match s with
  | [] => none
  | (k', v) :: rest => if k' = k then some v else scopeGet rest k

/-- Remove a key from a scope. -/
def scopeRemove (s : Scope) (k : String) : Scope :=
  match s with
  | [] => []
  | (k', v) :: rest => if k' = k then scopeRemove rest k else (k', v) :: scopeRemove rest k

/-- Set a key in a scope (replacing any previous binding). -/
def scopeSet (s : Scope) (k : String) (v : Value) : Scope :=
  (k, v) :: scopeRemove s k

/-- Apply one key/value of a merge: per the spec's variable-store contract a
`nil` value clears the key (the loop `item` variable "MUST be cleared"),
any other value overwrites it. -/
def applyKV (s : Scope) (kv : String × Value) : Scope :=
  match kv.2 with
  | Value.null => scopeRemove s kv.1
  | v => scopeSet s kv.1 v

/-- Modelled from the spec: the external variable store (`variable.Variable`).
It keeps one runtime overlay per host (the remote-fact overlay is conflated
with it; the distinction is irrelevant to the claims).  `failKeys` injects
store-level merge failures, which the spec allows (`Merge` returns an
error), so the executor's error branches are reachable. -/
structure Store where
  overlays : List (String × Scope)
  failKeys : List String
  deriving DecidableEq, Repr

/-- The overlay of one host (empty when the host is unknown). -/
def Store.overlay (st : Store) (host : String) : Scope :=
  match scopeFind st.overlays host with
  | some s => s
  | none => []
where
  scopeFind : List (String × Scope) → String → Option Scope
    | [], _ => none
    | (h, s) :: rest, k => if h = k then some s else scopeFind rest k

/-- Replace the overlay of one host. -/
def Store.setOverlay (st : Store) (host : String) (s : Scope) : Store :=
  { st with overlays := go st.overlays }
where
  go : List (String × Scope) → List (String × Scope)
    | [] => [(host, s)]
    | (h, s') :: rest => if h = host then (h, s) :: rest else (h, s') :: go rest

/-- Modelled from the spec: `variable.Merge(MergeRuntimeVariable(host, kvs))`.
A scoped per-host mutation; fails when the store rejects one of the keys. -/
def Store.mergeRuntime (st : Store) (host : String) (kvs : List (String × Value)) :
    Except String Store :=
  if kvs.any (fun kv => st.failKeys.contains kv.1) then
    Except.error "variable merge refused"
  else
    Except.ok (st.setOverlay host (kvs.foldl applyKV (st.overlay host)))

/-- Modelled from the spec: `variable.Get(GetAllVariable(host))` — the host's
full scope.  The store model never fails a read; the `Except` shape mirrors
the source's error check. -/
def Store.getAll (st : Store) (host : String) : Except String Scope :=
  Except.ok (st.overlay host)

/-- Modelled from the spec: `tmpl.ParseBool` on a single templated boolean
expression — literal `true`/`false` or a boolean variable of the scope;
anything else is a parse error. -/
def evalBoolExpr (scope : Scope) (e : String) : Except String Bool :=
  if e = "true" then Except.ok true
  else if e = "false" then Except.ok false
  else match scopeGet scope e with
    | some (Value.bool b) => Except.ok b
    | _ => Except.error ("parse bool error: " ++ e)

/-- Modelled from the spec: `tmpl.ParseBool(scope, exprs)` is the conjunction
of the expressions; any parse error fails; the empty list is true. -/
def parseBool (scope : Scope) (es : List String) : Except String Bool :=
  match es with
  | [] => Except.ok true
  | e :: rest =>
    match evalBoolExpr scope e with
    | Except.error msg => Except.error msg
    | Except.ok b =>
      match parseBool scope rest with
      | Except.error msg => Except.error msg
      | Except.ok b' => Except.ok (b && b')

/-- The scalar fields of a `kkcorev1.Block`.  `unknownFields` is the
unrecognized-field map of the block in iteration order: the module name is
selected from it (source `execBlock`, `for n, a := range at.UnknownFiled`).
`json.Marshal` of a parsed argument value cannot fail and is modelled as the
identity on `Value`. -/
structure BlockData where
  name : String
  tags : List String
  whenCond : List String
  vars : List (String × Value)
  runOnce : Bool
  includeTasks : String
  unknownFields : List (String × Value)
  failedWhen : List String
  register : String
  loop : Option (List Value)
  ignoreError : Bool
  deriving DecidableEq, Repr

/-- A block: scalar data plus the nested / rescue / always block lists
(`at.Block`, `at.Rescue`, `at.Always`). -/
inductive Block where
  | mk (data : BlockData) (block rescue always : List Block)

/-- The scalar data of a block. -/
def Block.data : Block → BlockData
  | .mk d _ _ _ => d

/-- The nested block list (`at.Block`). -/
def Block.nested : Block → List Block
  | .mk _ n _ _ => n

/-- The rescue block list (`at.Rescue`). -/
def Block.rescueBlocks : Block → List Block
  | .mk _ _ r _ => r

/-- The always block list (`at.Always`). -/
def Block.alwaysBlocks : Block → List Block
  | .mk _ _ _ a => a

/-- A role: name, vars, when conditions and its block list. -/
structure Role where
  role : String
  vars : List (String × Value)
  whenCond : List String
  block : List Block

/-- A play: host selector, gather/run-once/serial flags, vars and the four
ordered block lists (PreTasks, Roles, Tasks, PostTasks). -/
structure Play where
  name : String
  tags : List String
  hosts : List String
  gatherFacts : Bool
  runOnce : Bool
  serial : List Nat
  vars : List (String × Value)
  preTasks : List Block
  roles : List Role
  tasks : List Block
  postTasks : List Block

/-- A playbook: an ordered list of plays. -/
structure Playbook where
  play : List Play

/-- Task phases (`kubekeyv1alpha1.TaskPhase`). -/
inductive TaskPhase where
  | pending
  | running
  | success
  | ignored
  | failed
  deriving DecidableEq, Repr

/-- A per-host result (`kubekeyv1alpha1.TaskHostResult`). -/
structure TaskHostResult where
  host : String
  stdout : String
  stderr : String
  deriving DecidableEq, Repr

/-- One runner invocation record (`kubekeyv1alpha1.TaskCondition`); the
start/end timestamps are real-time data outside the embedding. -/
structure TaskCondition where
  hostResults : List TaskHostResult
  deriving DecidableEq, Repr

/-- The spec of a persisted task, derived from a leaf block. -/
structure TaskSpec where
  name : String
  hosts : List String
  whenCond : List String
  failedWhen : List String
  ignoreError : Bool
  register : String
  loop : Option (List Value)
  moduleName : String
  moduleArgs : Value
  deriving DecidableEq, Repr

/-- The status of a task. -/
structure TaskStatus where
  phase : TaskPhase
  restartCount : Nat
  conditions : List TaskCondition
  failedDetail : List TaskHostResult
  deriving DecidableEq, Repr

/-- A task record.  The server-generated object name is modelled by the spec
name. -/
structure Task where
  spec : TaskSpec
  status : TaskStatus
  deriving DecidableEq, Repr

/-- Modelled from the spec: `Task.IsComplete` (defined outside the source
file) — the terminal phases are Succeeded, Ignored and Failed. -/
def Task.IsComplete (t : Task) : Bool :=
  t.status.phase = TaskPhase.success || t.status.phase = TaskPhase.ignored ||
    t.status.phase = TaskPhase.failed

/-- Modelled from the spec: `Task.IsFailed` (defined outside the source
file) — the task ended in the Failed phase. -/
def Task.IsFailed (t : Task) : Bool :=
  t.status.phase = TaskPhase.failed

/-- Pipeline phases (`kubekeyv1.PipelinePhase`). -/
inductive PipelinePhase where
  | pending
  | running
  | succeed
  | failed
  deriving DecidableEq, Repr

/-- The pipeline task counters (`PipelineStatus.TaskResult`). -/
structure TaskResult where
  total : Nat
  success : Nat
  ignored : Nat
  failed : Nat
  deriving DecidableEq, Repr

/-- A pipeline-level failure detail (`kubekeyv1.PipelineFailedDetail`). -/
structure PipelineFailedDetail where
  task : String
  hosts : List TaskHostResult
  deriving DecidableEq, Repr

/-- The pipeline status mutated by the executor. -/
structure PipelineStatus where
  phase : PipelinePhase
  taskResult : TaskResult
  failedDetail : List PipelineFailedDetail
  reason : String
  deriving DecidableEq, Repr

/-- Observable events of one execution, in order. -/
inductive Event where
  | phaseSet (p : PipelinePhase)
  | taskCreated (name moduleName : String)
  | moduleInvoked (host moduleName : String)
  | itemCleared (host : String)
  | hostResult (host stdout stderr : String)
  deriving DecidableEq, Repr

/-- The external collaborators and the read-only pipeline spec:
the module registry (`modules.FindModule`), the fact gatherer
(`getGatherFact`, defined outside the source file), hostname resolution
(`variable.GetHostnames`) and the pipeline's tag filters. -/
structure Env where
  findModule : String → Option (Value → String → String × String)
  gather : String → Except String (List (String × Value))
  getHostnames : List String → List String
  tags : List String
  skipTags : List String

/-- The executor state threaded through the embedding: the shared variable
store, the in-memory pipeline status and the event trace. -/
structure ExecState where
  store : Store
  pipeline : PipelineStatus
  trace : List Event

/-- Assign the pipeline phase, recording the write in the trace. -/
def ExecState.setPhase (st : ExecState) (p : PipelinePhase) : ExecState :=
  { st with pipeline := { st.pipeline with phase := p },
            trace := st.trace ++ [Event.phaseSet p] }

/-- Look the task's module up in the registry and invoke it.  Task
materialization guarantees the name is registered, so the `none` branch
(where the source would dereference a nil function) is unreachable for
tasks produced by `execBlock`. -/
def invokeModule (env : Env) (task : Task) (host : String) :
    (String × String) × List Event :=
  match env.findModule task.spec.moduleName with
  | some m => (m task.spec.moduleArgs host, [Event.moduleInvoked host task.spec.moduleName])
  | none => (("", "module not found: " ++ task.spec.moduleName), [])

/-- Source `executor.executeModule`: fetch the host's scope, check the
`failed_when` condition against it, and only if it does not parse true
invoke the module.  Returns `(stdout, stderr)` plus the invocation events. -/
def executeModule (env : Env) (st : Store) (task : Task) (host : String) :
    (String × String) × List Event :=
  match st.getAll host with
  | Except.error e => (("", "get location variable error: " ++ e), [])
  | Except.ok lg =>
    if task.spec.failedWhen.length > 0 then
      match parseBool lg task.spec.failedWhen with
      | Except.error e => (("", e), [])
      | Except.ok true => (("", "failed by failedWhen"), [])
      | Except.ok false => invokeModule env task host
    else invokeModule env task host

/-- Source `executor.execLoop`: no loop directive means the singleton
`[nil]`; otherwise `variable.Extension2Slice` resolves the directive (the
source wraps the resolution with a nil error). -/
def execLoop (task : Task) : Except String (List Value) :=
  match task.spec.loop with
  | none => Except.ok [Value.null]
  | some items => Except.ok items

/-- The loop of the per-host unit of `executor.executeTask`: for each item
merge `{item: <v>}`, invoke the module, merge `{item: nil}`; a merge failure
sets stderr and aborts the unit body.  Carries the running `(stdout, stderr)`
pair, which each module invocation overwrites. -/
def runItems (env : Env) (st : Store) (task : Task) (host : String)
    (items : List Value) (stdout stderr : String) :
    Store × List Event × String × String :=
  match items with
  | [] => (st, [], stdout, stderr)
  | item :: rest =>
    match st.mergeRuntime host [("item", item)] with
    | Except.error e => (st, [], stdout, "set loop item to variable error: " ++ e)
    | Except.ok st1 =>
      match executeModule env st1 task host with
      | ((out, err), evs) =>
        match st1.mergeRuntime host [("item", Value.null)] with
        | Except.error e => (st1, evs, out, "clean loop item to variable error: " ++ e)
        | Except.ok st2 =>
          match runItems env st2 task host rest out err with
          | (st3, evs', o, e) => (st3, evs ++ [Event.itemCleared host] ++ evs', o, e)

/-- The body of the per-host goroutine of `executor.executeTask`: fetch the
scope, check `when` (skip), expand the loop and run the items. -/
def runHostBody (env : Env) (st : Store) (task : Task) (host : String) :
    Store × List Event × String × String :=
  match st.getAll host with
  | Except.error e => (st, [], "", "get variable error: " ++ e)
  | Except.ok ha =>
    if task.spec.whenCond.length > 0 then
      match parseBool ha task.spec.whenCond with
      | Except.error e => (st, [], "", "parse when condition error: " ++ e)
      | Except.ok false => (st, [], "skip", "")
      | Except.ok true =>
        match execLoop task with
        | Except.error e => (st, [], "", "parse loop vars error: " ++ e)
        | Except.ok items => runItems env st task host items "" ""
    else
      match execLoop task with
      | Except.error e => (st, [], "", "parse loop vars error: " ++ e)
      | Except.ok items => runItems env st task host items "" ""

/-- The deferred tail of the per-host goroutine: when `register` is set,
merge `{<register>: {stdout, stderr}}` into the host's runtime overlay; if
that merge fails the source sets stderr to the failure message and returns
from the deferred function, so no result is sent on the channel (`none`).
Otherwise the `HostResult` is emitted. -/
def runHostFinish (st : Store) (task : Task) (host stdout stderr : String) :
    Store × List Event × Option TaskHostResult :=
  if task.spec.register ≠ "" then
    match st.mergeRuntime host
        [(task.spec.register, Value.strMap [("stdout", stdout), ("stderr", stderr)])] with
    | Except.error _ => (st, [], none)
    | Except.ok st' =>
      (st', [Event.hostResult host stdout stderr], some ⟨host, stdout, stderr⟩)
  else (st, [Event.hostResult host stdout stderr], some ⟨host, stdout, stderr⟩)

/-- One per-host unit of work: body then deferred tail. -/
def runHost (env : Env) (st : Store) (task : Task) (host : String) :
    Store × List Event × Option TaskHostResult :=
  match runHostBody env st task host with
  | (st1, evs, stdout, stderr) =>
    match runHostFinish st1 task host stdout stderr with
    | (st2, evs2, res) => (st2, evs ++ evs2, res)

/-- All per-host units, sequentialised in host order (each unit touches only
its own host's overlay; this is one admissible arrival order). -/
def runHosts (env : Env) (st : Store) (task : Task) :
    List String → Store × List Event × List TaskHostResult
  | [] => (st, [], [])
  | h :: hs =>
    match runHost env st task h with
    | (st1, evs, res) =>
      match runHosts env st1 task hs with
      | (st2, evs2, rs) => (st2, evs ++ evs2, res.toList ++ rs)

/-- The aggregation loop of `executor.executeTask`: start at Success; every
result with non-empty stderr flips the phase to Ignored (`ignore_error`) or
to Failed with a `FailedDetail` entry. -/
def aggregateResults (task : Task) (results : List TaskHostResult) : Task :=
  results.foldl
    (fun t d =>
      if d.stderr ≠ "" then
        if t.spec.ignoreError then
          { t with status := { t.status with phase := TaskPhase.ignored } }
        else
          { t with status :=
              { t.status with
                phase := TaskPhase.failed
                failedDetail := t.status.failedDetail ++ [d] } }
      else t)
    { task with status := { task.status with phase := TaskPhase.success } }

/-- The result of one `executeTask` call. -/
structure TaskRunResult where
  store : Store
  task : Task
  events : List Event
  err : Option String
  deriving Repr

/-- Source `executor.executeTask` (the Task Runner): run every host's unit,
collect the emitted host results, aggregate the phase, and append one
`TaskCondition` holding all collected results.  The source has no non-nil
error return, which the `err` field records as always `none`. -/
def executeTask (env : Env) (st : Store) (task : Task) : TaskRunResult :=
  match runHosts env st task task.spec.hosts with
  | (st1, evs, results) =>
    match aggregateResults task results with
    | t1 =>
      { store := st1
        task := { t1 with status := { t1.status with
                    conditions := t1.status.conditions ++ [⟨results⟩] } }
        events := evs
        err := none }

/-- The task drive loop of `executor.execBlock`: set the phase to Running,
persist (modelled as succeeding), run the Task Runner, persist again, and
loop until `IsComplete`.  The Go loop is unbounded; `fuel` bounds it in the
embedding and `none` marks fuel exhaustion, which the claims show is never
reached for positive fuel. -/
def driveTask (env : Env) (fuel : Nat) (st : Store) (task : Task) :
    Option TaskRunResult :=
  match fuel with
  | 0 => none
  | f + 1 =>
    let t1 := { task with status := { task.status with phase := TaskPhase.running } }
    match executeTask env st t1 with
    | r =>
      match r.err with
      | some e => some { r with err := some e }
      | none =>
        if r.task.IsComplete then some r
        else
          match driveTask env f r.store r.task with
          | none => none
          | some r' => some { r' with events := r.events ++ r'.events }

/-- Modelled from the spec: `Taggable.IsEnabled(tags, skipTags)` (defined
outside the source file) — enabled when the include filter is empty or
matched, and no tag is skipped. -/
def isEnabled (tags onlyTags skipTags : List String) : Bool :=
  (onlyTags.isEmpty || tags.any (fun t => onlyTags.contains t)) &&
    !(tags.any (fun t => skipTags.contains t))

/-- Merge a vars map into each listed host's runtime overlay, stopping at the
first store error. -/
def mergeHosts (st : Store) (vd : List (String × Value)) :
    List String → Except String Store
  | [] => Except.ok st
  | h :: hs =>
    match st.mergeRuntime h vd with
    | Except.error e => Except.error e
    | Except.ok st' => mergeHosts st' vd hs

/-- Source `executor.mergeVariable`: skip when the vars map is empty,
otherwise merge it into every host. -/
def mergeVariable (st : Store) (vd : List (String × Value)) (hosts : List String) :
    Except String Store :=
  if vd.isEmpty then Except.ok st else mergeHosts st vd hosts

/-- Modelled from the spec: `converter.MarshalBlock` (defined outside the
source file) — derive a Task spec from a leaf block: name, hosts, the
accumulated when stack, failed-when, ignore-error, register and loop; the
module is filled in afterwards from the unrecognized fields. -/
def marshalBlock (hosts : List String) (whenStack : List String) (d : BlockData) : Task :=
  { spec :=
      { name := d.name
        hosts := hosts
        whenCond := whenStack
        failedWhen := d.failedWhen
        ignoreError := d.ignoreError
        register := d.register
        loop := d.loop
        moduleName := ""
        moduleArgs := Value.null }
    status :=
      { phase := TaskPhase.pending
        restartCount := 0
        conditions := []
        failedDetail := [] } }

/-- The module-selection scan of `executor.execBlock`: walk the block's
unrecognized fields in iteration order and take the first key naming a
registered module, storing its value as the raw args. -/
def selectModule (env : Env) (t : Task) : List (String × Value) → Task
  | [] => t
  | (n, a) :: rest =>
    match env.findModule n with
    | some _ =>
      { t with spec := { t.spec with moduleName := n, moduleArgs := a } }
    | none => selectModule env t rest

/-- The block-walking context (`executor.execBlockOptions`). -/
structure BlockOptions where
  hosts : List String
  role : String
  whenCond : List String

/-- The leaf branch of `executor.execBlock` (the `default:` case): the block
is materialized into a Task, the module is selected from the unrecognized
fields (`NoModuleError` when none matches), the task is created and driven,
the pipeline counters are updated, and a failed task records the pipeline
failure detail, sets the pipeline phase to Failed, sets the reason and
returns an error. -/
def execLeafTask (env : Env) (fuel : Nat) (opts : BlockOptions) (d : BlockData)
    (hosts : List String) (st1 : ExecState) : ExecState × Option String :=
  let task0 := selectModule env (marshalBlock hosts (opts.whenCond ++ d.whenCond) d)
    d.unknownFields
  if task0.spec.moduleName = "" then
    (st1, some ("no module/action detected in task: " ++ task0.spec.name))
  else
    let st2 : ExecState :=
      { st1 with trace := st1.trace ++ [Event.taskCreated task0.spec.name task0.spec.moduleName] }
    match driveTask env fuel st2.store task0 with
    | none => (st2, some "task drive loop out of fuel")
    | some r =>
      let st3 : ExecState := { st2 with store := r.store, trace := st2.trace ++ r.events }
      match r.err with
      | some e => (st3, some e)
      | none =>
        let tr0 := st3.pipeline.taskResult
        let tr1 := { tr0 with total := tr0.total + 1 }
        let tr2 :=
          match r.task.status.phase with
          | TaskPhase.success => { tr1 with success := tr1.success + 1 }
          | TaskPhase.ignored => { tr1 with ignored := tr1.ignored + 1 }
          | TaskPhase.failed => { tr1 with failed := tr1.failed + 1 }
          | _ => tr1
        let st4 : ExecState :=
          { st3 with pipeline := { st3.pipeline with taskResult := tr2 } }
        if r.task.IsFailed then
          let st5 : ExecState :=
            { st4 with pipeline :=
                { st4.pipeline with
                  failedDetail := st4.pipeline.failedDetail ++
                    [⟨task0.spec.name, r.task.status.failedDetail⟩] } }
          let st6 := st5.setPhase PipelinePhase.failed
          let st7 : ExecState :=
            { st6 with pipeline :=
                { st6.pipeline with
                  reason := "task " ++ task0.spec.name ++ " run failed" } }
          (st7, some ("task " ++ task0.spec.name ++ " run failed"))
        else (st4, none)

/-- The run-once host restriction of `executor.execBlock`: a run-once block
runs on the first host of the batch only. -/
def blockHosts (d : BlockData) (hs : List String) : List String :=
  if d.runOnce then hs.take 1 else hs

/-- Source `executor.execBlock`: walk a block list in order.  Per block:
tag filter, run-once host restriction, block vars merge, then dispatch —
composite blocks recurse into nested (and, guarded by the pipeline phase,
rescue, then always); include-tasks blocks are a no-op; leaf blocks go
through `execLeafTask`.  An error from any recursion aborts the walk and is
returned immediately.  The Go recursion is bounded by the block tree; the
embedding recurses structurally on `fuel` (so the definition computes), and
the claims hold for every fuel — running out of fuel only returns an error
without touching the state. -/
def execBlock (env : Env) (fuel : Nat) (opts : BlockOptions) (blocks : List Block)
    (st : ExecState) : ExecState × Option String :=
  match fuel with
  | 0 => (st, some "walker out of fuel")
  | f + 1 =>
    match blocks with
    | [] => (st, none)
    | Block.mk d nested rescueBs alwaysBs :: rest =>
      if !isEnabled d.tags env.tags env.skipTags then
        execBlock env f opts rest st
      else
        match mergeVariable st.store d.vars (blockHosts d opts.hosts) with
        | Except.error e => (st, some e)
        | Except.ok store1 =>
          if nested.length ≠ 0 then
            match execBlock env f
                ⟨blockHosts d opts.hosts, opts.role, opts.whenCond ++ d.whenCond⟩ nested
                { st with store := store1 } with
            | (st2, some e) => (st2, some e)
            | (st2, none) =>
              match (if st2.pipeline.phase = PipelinePhase.failed ∧ rescueBs.length ≠ 0 then
                  execBlock env f
                    ⟨blockHosts d opts.hosts, opts.role, opts.whenCond ++ d.whenCond⟩ rescueBs st2
                else (st2, none)) with
              | (st3, some e) => (st3, some e)
              | (st3, none) =>
                match (if alwaysBs.length ≠ 0 then
                    execBlock env f
                      ⟨blockHosts d opts.hosts, opts.role, opts.whenCond ++ d.whenCond⟩ alwaysBs st3
                  else (st3, none)) with
                | (st4, some e) => (st4, some e)
                | (st4, none) => execBlock env f opts rest st4
          else if d.includeTasks ≠ "" then
            execBlock env f opts rest { st with store := store1 }
          else
            match execLeafTask env (f + 1) opts d (blockHosts d opts.hosts)
                { st with store := store1 } with
            | (st2, some e) => (st2, some e)
            | (st2, none) => execBlock env f opts rest st2

/-- The gather loop of `executor.Exec`: for each host obtain the facts
(`getGatherFact`, defined outside the source file, modelled via the
environment) and merge them into the host's remote overlay; the first error
aborts. -/
def gatherAllFacts (env : Env) (st : Store) : List String → Except String Store
  | [] => Except.ok st
  | h :: hs =>
    match env.gather h with
    | Except.error e => Except.error e
    | Except.ok gfv =>
      match st.mergeRuntime h gfv with
      | Except.error e => Except.error e
      | Except.ok st' => gatherAllFacts env st' hs

/-- Modelled from the spec: `converter.GroupHostBySerial` (defined outside
the source file) — partition the hosts by the serial counts, repeating the
last count to cover the remainder; an empty serial spec means one batch of
all hosts; a zero count is an error (it would produce an empty batch). -/
def groupHostBySerial (hosts : List String) (serial : List Nat) :
    Except String (List (List String)) :=
  match serial with
  | [] => Except.ok [hosts]
  | _ =>
    if serial.contains 0 then Except.error "invalid serial count"
    else Except.ok (chunkCounts hosts serial)
where
  /-- Take `counts` prefixes, then repeat the final count. -/
  chunkCounts : List String → List Nat → List (List String)
    | [], _ => []
    | hs, [] => [hs]
    | hs, [n] =>
      if n = 0 then [hs]
      else
        match hs with
        | [] => []
        | h0 :: htl => (h0 :: htl).take n :: chunkCounts ((h0 :: htl).drop n) [n]
    | hs, n :: m :: ns => hs.take n :: chunkCounts (hs.drop n) (m :: ns)
  termination_by hs counts => hs.length + counts.length
  decreasing_by all_goals (simp_wf; try omega)

/-- The role section of one batch in `executor.Exec`: merge each role's vars
and walk its block list with the role name and the role's when stack. -/
def execRoles (env : Env) (fuel : Nat) (serials : List String) :
    List Role → ExecState → ExecState × Option String
  | [], st => (st, none)
  | r :: rs, st =>
    match mergeVariable st.store r.vars serials with
    | Except.error e => (st, some e)
    | Except.ok store1 =>
      match execBlock env fuel ⟨serials, r.role, r.whenCond⟩ r.block { st with store := store1 } with
      | (st1, some e) => (st1, some e)
      | (st1, none) => execRoles env fuel serials rs st1

/-- The batch loop of `executor.Exec`: reject empty batches, merge the play
vars, then walk pre tasks, roles, tasks — and, labelled "post tasks", the
source walks `play.Tasks` again (not `play.PostTasks`). -/
def execBatches (env : Env) (fuel : Nat) (play : Play) :
    List (List String) → ExecState → ExecState × Option String
  | [], st => (st, none)
  | serials :: restBatches, st =>
    if serials.length = 0 then (st, some "host is empty")
    else
      match mergeVariable st.store play.vars serials with
      | Except.error e => (st, some e)
      | Except.ok store1 =>
        match execBlock env fuel ⟨serials, "", []⟩ play.preTasks { st with store := store1 } with
        | (st1, some e) => (st1, some e)
        | (st1, none) =>
          match execRoles env fuel serials play.roles st1 with
          | (st2, some e) => (st2, some e)
          | (st2, none) =>
            match execBlock env fuel ⟨serials, "", []⟩ play.tasks st2 with
            | (st3, some e) => (st3, some e)
            | (st3, none) =>
              match execBlock env fuel ⟨serials, "", []⟩ play.tasks st3 with
              | (st4, some e) => (st4, some e)
              | (st4, none) => execBatches env fuel play restBatches st4

/-- One play of `executor.Exec`: tag filter, hostname resolution (empty
hosts skip the play), fact gathering, batching, then the batch loop. -/
def execPlay (env : Env) (fuel : Nat) (play : Play) (st : ExecState) :
    ExecState × Option String :=
  if !isEnabled play.tags env.tags env.skipTags then (st, none)
  else
    let hosts := env.getHostnames play.hosts
    if hosts.length = 0 then (st, none)
    else
      match (if play.gatherFacts then gatherAllFacts env st.store hosts
             else Except.ok st.store) with
      | Except.error e => (st, some e)
      | Except.ok store1 =>
        let st1 : ExecState := { st with store := store1 }
        match (if play.runOnce then Except.ok [hosts.take 1]
               else groupHostBySerial hosts play.serial) with
        | Except.error e => (st1, some e)
        | Except.ok batches => execBatches env fuel play batches st1

/-- The play loop of `executor.Exec`. -/
def execPlays (env : Env) (fuel : Nat) : List Play → ExecState → ExecState × Option String
  | [], st => (st, none)
  | p :: ps, st =>
    match execPlay env fuel p st with
    | (st1, some e) => (st1, some e)
    | (st1, none) => execPlays env fuel ps st1

/-- Source `executor.Exec`: set the pipeline phase to Running, run the
plays, and in the deferred finalizer write Succeeded and then overwrite
with Failed when any failure detail was recorded.  Project resolution and
playbook marshalling are external and the playbook is taken as given. -/
def Exec (env : Env) (pb : Playbook) (fuel : Nat) (st0 : ExecState) :
    ExecState × Option String :=
  let st := st0.setPhase PipelinePhase.running
  match execPlays env fuel pb.play st with
  | (st1, err) =>
    let st2 := st1.setPhase PipelinePhase.succeed
    let st3 :=
      if st2.pipeline.failedDetail.length ≠ 0 then st2.setPhase PipelinePhase.failed
      else st2
    (st3, err)

/-! ### Observations over traces -/

/-- The sequence of values written to the pipeline phase field, in order. -/
def phaseWrites (tr : List Event) : List PipelinePhase :=
  tr.filterMap fun ev =>
    match ev with
    | Event.phaseSet p => some p
    | _ => none

/-- The names of the tasks persisted via `Create`, in order. -/
def createdNames (tr : List Event) : List String :=
  tr.filterMap fun ev =>
    match ev with
    | Event.taskCreated n _ => some n
    | _ => none

/-- The module names of the tasks persisted via `Create`, in order. -/
def createdModules (tr : List Event) : List String :=
  tr.filterMap fun ev =>
    match ev with
    | Event.taskCreated _ m => some m
    | _ => none

/-- The number of module invocations in a trace. -/
def moduleInvocations (tr : List Event) : Nat :=
  (tr.filter fun ev =>
    match ev with
    | Event.moduleInvoked _ _ => true
    | _ => false).length

/-- The number of successful `{item: nil}` clearing merges in a trace. -/
def itemClears (tr : List Event) : Nat :=
  (tr.filter fun ev =>
    match ev with
    | Event.itemCleared _ => true
    | _ => false).length

/-- The emitted host results of a trace. -/
def emittedResults (tr : List Event) : List TaskHostResult :=
  tr.filterMap fun ev =>
    match ev with
    | Event.hostResult h o e => some ⟨h, o, e⟩
    | _ => none

/-- One step of the phase-transition relation the spec allows: Pending →
Running → {Succeeded, Failed} (repeating a value is not a transition). -/
def allowedPhaseStep (a b : PipelinePhase) : Prop :=
  a = b ∨
    (a = PipelinePhase.pending ∧ b = PipelinePhase.running) ∨
    (a = PipelinePhase.running ∧ b = PipelinePhase.succeed) ∨
    (a = PipelinePhase.running ∧ b = PipelinePhase.failed)

instance (a b : PipelinePhase) : Decidable (allowedPhaseStep a b) := by
  unfold allowedPhaseStep; infer_instance

/-- Every adjacent pair of a phase sequence is an allowed step (Boolean
check). -/
def phaseMonotoneB : List PipelinePhase → Bool
  | a :: b :: rest => decide (allowedPhaseStep a b) && phaseMonotoneB (b :: rest)
  | _ => true

/-- Phase monotonicity as the spec states it: every adjacent pair of the
observed phase sequence is an allowed step. -/
def PhaseMonotone (ps : List PipelinePhase) : Prop :=
  phaseMonotoneB ps = true

instance (ps : List PipelinePhase) : Decidable (PhaseMonotone ps) :=
  inferInstanceAs (Decidable (phaseMonotoneB ps = true))

/-! ### Concrete fixtures -/

/-- A leaf block whose single unrecognized field names its module. -/
def leafBlock (name mod : String) : Block :=
  Block.mk
    { name := name, tags := [], whenCond := [], vars := [], runOnce := false,
      includeTasks := "", unknownFields := [(mod, Value.null)], failedWhen := [],
      register := "", loop := none, ignoreError := false } [] [] []

/-- A composite block with given nested / rescue / always lists. -/
def compositeBlock (name : String) (nested rescueBs alwaysBs : List Block) : Block :=
  Block.mk
    { name := name, tags := [], whenCond := [], vars := [], runOnce := false,
      includeTasks := "", unknownFields := [], failedWhen := [],
      register := "", loop := none, ignoreError := false } nested rescueBs alwaysBs

/-- A registry with a succeeding module `okmod` and a failing module
`failmod`; facts gather cleanly; host selectors resolve to themselves. -/
def envBase : Env :=
  { findModule := fun n =>
      if n = "okmod" then some (fun _ _ => ("hi", ""))
      else if n = "failmod" then some (fun _ _ => ("", "boom"))
      else none
    gather := fun _ => Except.ok [("os", Value.str "linux")]
    getHostnames := fun hs => hs
    tags := []
    skipTags := [] }

/-- A one-section play over host `a`. -/
def mkPlay (tasks postTasks : List Block) : Play :=
  { name := "p", tags := [], hosts := ["a"], gatherFacts := false,
    runOnce := false, serial := [], vars := [], preTasks := [], roles := [],
    tasks := tasks, postTasks := postTasks }

/-- A pristine initial state: empty store, Pending pipeline, empty trace. -/
def initState : ExecState :=
  { store := { overlays := [], failKeys := [] }
    pipeline :=
      { phase := PipelinePhase.pending
        taskResult := { total := 0, success := 0, ignored := 0, failed := 0 }
        failedDetail := []
        reason := "" }
    trace := [] }

/-! ### Basic trace lemmas -/

/-- Events the Task Runner can emit (no pipeline-phase writes, no task
creations). -/
def isTaskEvent : Event → Bool
  | Event.moduleInvoked _ _ => true
  | Event.itemCleared _ => true
  | Event.hostResult _ _ _ => true
  | _ => false

theorem phaseWrites_append (a b : List Event) :
    phaseWrites (a ++ b) = phaseWrites a ++ phaseWrites b := by
  simp [phaseWrites]

theorem createdModules_append (a b : List Event) :
    createdModules (a ++ b) = createdModules a ++ createdModules b := by
  simp [createdModules]

theorem createdNames_append (a b : List Event) :
    createdNames (a ++ b) = createdNames a ++ createdNames b := by
  simp [createdNames]

theorem phaseWrites_of_taskEvents (evs : List Event)
    (h : ∀ ev ∈ evs, isTaskEvent ev = true) : phaseWrites evs = [] := by
  induction evs with
  | nil => rfl
  | cons ev rest ih =>
    have hev := h ev (List.mem_cons_self _ _)
    have hrest := ih fun e he => h e (List.mem_cons_of_mem _ he)
    cases ev <;> simp_all [phaseWrites, isTaskEvent]

theorem createdModules_of_taskEvents (evs : List Event)
    (h : ∀ ev ∈ evs, isTaskEvent ev = true) : createdModules evs = [] := by
  induction evs with
  | nil => rfl
  | cons ev rest ih =>
    have hev := h ev (List.mem_cons_self _ _)
    have hrest := ih fun e he => h e (List.mem_cons_of_mem _ he)
    cases ev <;> simp_all [createdModules, isTaskEvent]

/-! ### Task Runner structural lemmas -/

theorem executeModule_taskEvents (env : Env) (st : Store) (task : Task) (host : String) :
    ∀ ev ∈ (executeModule env st task host).2, isTaskEvent ev = true := by
  intro ev hev
  unfold executeModule invokeModule at hev
  simp only [Store.getAll] at hev
  repeat' split at hev
  all_goals simp_all [isTaskEvent]

theorem runItems_taskEvents (env : Env) (st : Store) (task : Task) (host : String)
    (items : List Value) (stdout stderr : String) :
    ∀ ev ∈ (runItems env st task host items stdout stderr).2.1, isTaskEvent ev = true := by
  induction items generalizing st stdout stderr with
  | nil => intro ev hev; simp [runItems] at hev
  | cons item rest ih =>
    intro ev hev
    unfold runItems at hev
    split at hev
    · simp at hev
    · next st1 _ =>
      rcases hmod : executeModule env st1 task host with ⟨⟨out, err⟩, evs⟩
      have hevs : ∀ e' ∈ evs, isTaskEvent e' = true := by
        intro e' he'
        have := executeModule_taskEvents env st1 task host e'
        rw [hmod] at this
        exact this he'
      simp only [hmod] at hev
      split at hev
      · exact hevs ev hev
      · next st2 _ =>
        rcases hrec : runItems env st2 task host rest out err with ⟨st3, evs', o, e⟩
        have hevs' : ∀ e' ∈ evs', isTaskEvent e' = true := by
          intro e' he'
          have := ih st2 out err e'
          rw [hrec] at this
          exact this he'
        simp only [hrec] at hev
        simp only [List.mem_append, List.mem_singleton] at hev
        rcases hev with (h | h) | h
        · exact hevs ev h
        · subst h; rfl
        · exact hevs' ev h

theorem runHostBody_taskEvents (env : Env) (st : Store) (task : Task) (host : String) :
    ∀ ev ∈ (runHostBody env st task host).2.1, isTaskEvent ev = true := by
  intro ev hev
  unfold runHostBody at hev
  simp only [Store.getAll] at hev
  repeat' split at hev
  all_goals first
    | simp at hev
    | exact runItems_taskEvents env st task host _ "" "" ev hev

theorem runHost_taskEvents (env : Env) (st : Store) (task : Task) (host : String) :
    ∀ ev ∈ (runHost env st task host).2.1, isTaskEvent ev = true := by
  intro ev hev
  unfold runHost at hev
  rcases hbody : runHostBody env st task host with ⟨st1, evs, stdout, stderr⟩
  have hevs : ∀ e' ∈ evs, isTaskEvent e' = true := by
    intro e' he'
    have := runHostBody_taskEvents env st task host e'
    rw [hbody] at this
    exact this he'
  simp only [hbody] at hev
  rcases hfin : runHostFinish st1 task host stdout stderr with ⟨st2, evs2, res⟩
  have hevs2 : ∀ e' ∈ evs2, isTaskEvent e' = true := by
    intro e' he'
    unfold runHostFinish at hfin
    repeat' split at hfin
    all_goals (cases hfin; simp_all [isTaskEvent])
  simp only [hfin] at hev
  simp only [List.mem_append] at hev
  rcases hev with h | h
  · exact hevs ev h
  · exact hevs2 ev h

theorem runHosts_taskEvents (env : Env) (st : Store) (task : Task) (hosts : List String) :
    ∀ ev ∈ (runHosts env st task hosts).2.1, isTaskEvent ev = true := by
  induction hosts generalizing st with
  | nil => intro ev hev; simp [runHosts] at hev
  | cons h hs ih =>
    intro ev hev
    unfold runHosts at hev
    rcases hrun : runHost env st task h with ⟨st1, evs, res⟩
    have hevs : ∀ e' ∈ evs, isTaskEvent e' = true := by
      intro e' he'
      have := runHost_taskEvents env st task h e'
      rw [hrun] at this
      exact this he'
    simp only [hrun] at hev
    rcases hrest : runHosts env st1 task hs with ⟨st2, evs2, rs⟩
    have hevs2 : ∀ e' ∈ evs2, isTaskEvent e' = true := by
      intro e' he'
      have := ih st1 e'
      rw [hrest] at this
      exact this he'
    simp only [hrest] at hev
    simp only [List.mem_append] at hev
    rcases hev with h' | h'
    · exact hevs ev h'
    · exact hevs2 ev h'

theorem executeTask_taskEvents (env : Env) (st : Store) (task : Task) :
    ∀ ev ∈ (executeTask env st task).events, isTaskEvent ev = true := by
  intro ev hev
  unfold executeTask at hev
  rcases hruns : runHosts env st task task.spec.hosts with ⟨st1, evs, results⟩
  have := runHosts_taskEvents env st task task.spec.hosts ev
  rw [hruns] at this
  simp only [hruns] at hev
  exact this hev

/-- `aggregateResults` only rewrites the status phase and failure details:
spec, restart count and conditions are untouched, and the phase lands in a
terminal value. -/
theorem aggregateResults_spec (task : Task) (results : List TaskHostResult) :
    (aggregateResults task results).spec = task.spec ∧
    (aggregateResults task results).status.restartCount = task.status.restartCount ∧
    (aggregateResults task results).status.conditions = task.status.conditions ∧
    ((aggregateResults task results).status.phase = TaskPhase.success ∨
     (aggregateResults task results).status.phase = TaskPhase.ignored ∨
     (aggregateResults task results).status.phase = TaskPhase.failed) := by
  unfold aggregateResults
  generalize hstart :
    ({ task with status := { task.status with phase := TaskPhase.success } } : Task) = t0
  have h0 : t0.spec = task.spec ∧ t0.status.restartCount = task.status.restartCount ∧
      t0.status.conditions = task.status.conditions ∧
      (t0.status.phase = TaskPhase.success ∨ t0.status.phase = TaskPhase.ignored ∨
       t0.status.phase = TaskPhase.failed) := by
    subst hstart; exact ⟨rfl, rfl, rfl, Or.inl rfl⟩
  clear hstart
  induction results generalizing t0 with
  | nil => simpa using h0
  | cons d rest ih =>
    simp only [List.foldl_cons]
    apply ih
    obtain ⟨h1, h2, h3, h4⟩ := h0
    split
    · split
      · exact ⟨h1, h2, h3, Or.inr (Or.inl rfl)⟩
      · exact ⟨h1, h2, h3, Or.inr (Or.inr rfl)⟩
    · exact ⟨h1, h2, h3, h4⟩

/-- The Task Runner always returns a nil error, appends exactly one
condition, leaves spec and restart count alone and ends in a terminal
phase. -/
theorem executeTask_spec (env : Env) (st : Store) (task : Task) :
    (executeTask env st task).err = none ∧
    (executeTask env st task).task.spec = task.spec ∧
    (executeTask env st task).task.status.restartCount = task.status.restartCount ∧
    (executeTask env st task).task.status.conditions.length
      = task.status.conditions.length + 1 ∧
    ((executeTask env st task).task.status.phase = TaskPhase.success ∨
     (executeTask env st task).task.status.phase = TaskPhase.ignored ∨
     (executeTask env st task).task.status.phase = TaskPhase.failed) := by
  unfold executeTask
  rcases hruns : runHosts env st task task.spec.hosts with ⟨st1, evs, results⟩
  obtain ⟨h1, h2, h3, h4⟩ := aggregateResults_spec task results
  refine ⟨rfl, h1, h2, ?_, h4⟩
  simp [h3]

/-- With any positive fuel the drive loop performs exactly one runner
invocation: the runner's phase is terminal, so `IsComplete` breaks the loop
immediately. -/
theorem driveTask_succ (env : Env) (f : Nat) (st : Store) (task : Task) :
    driveTask env (f + 1) st task =
      some (executeTask env st
        { task with status := { task.status with phase := TaskPhase.running } }) := by
  obtain ⟨he, _, _, _, hp⟩ := executeTask_spec env st
    { task with status := { task.status with phase := TaskPhase.running } }
  unfold driveTask
  simp only [he]
  have hc : (executeTask env st
      { task with status := { task.status with phase := TaskPhase.running } }).task.IsComplete
        = true := by
    unfold Task.IsComplete
    rcases hp with h | h | h <;> simp [h]
  simp [hc]

/-- The drive loop's result is independent of the fuel, for positive fuel. -/
theorem driveTask_eq_one (env : Env) (fuel : Nat) (st : Store) (task : Task)
    (h : 1 ≤ fuel) : driveTask env fuel st task = driveTask env 1 st task := by
  cases fuel with
  | zero => omega
  | succ f => rw [driveTask_succ, show (1 : Nat) = 0 + 1 from rfl, driveTask_succ]

/-- Everything the claims need about a completed drive: nil error, one new
condition, untouched spec and restart count, terminal phase, and only
runner events. -/
theorem driveTask_spec (env : Env) (fuel : Nat) (st : Store) (task : Task)
    (r : TaskRunResult) (h : driveTask env fuel st task = some r) :
    r.err = none ∧
    r.task.spec = task.spec ∧
    r.task.status.restartCount = task.status.restartCount ∧
    r.task.status.conditions.length = task.status.conditions.length + 1 ∧
    (r.task.status.phase = TaskPhase.success ∨
     r.task.status.phase = TaskPhase.ignored ∨
     r.task.status.phase = TaskPhase.failed) ∧
    (∀ ev ∈ r.events, isTaskEvent ev = true) := by
  cases fuel with
  | zero => simp [driveTask] at h
  | succ f =>
    rw [driveTask_succ] at h
    obtain ⟨h1, h2, h3, h4, h5⟩ := executeTask_spec env st
      { task with status := { task.status with phase := TaskPhase.running } }
    have hr : r = executeTask env st
        { task with status := { task.status with phase := TaskPhase.running } } := by
      injection h with h'; exact h'.symm
    subst hr
    exact ⟨h1, h2, h3, h4, h5, executeTask_taskEvents env st _⟩

/-! ### The walk invariant -/

/-- The counter accounting invariant of the spec. -/
def CountOK (c : TaskResult) : Prop :=
  c.total = c.success + c.ignored + c.failed

/-- What one walker step guarantees: counters stay accounted, the trace only
grows, no created task lacks a module, and the new events either contain no
phase write and leave the failure details alone, or contain exactly the one
Failed write of a failed task, with an error returned and a failure detail
recorded. -/
def WalkOK (st st' : ExecState) (e : Option String) : Prop :=
  (CountOK st.pipeline.taskResult → CountOK st'.pipeline.taskResult) ∧
  ∃ Δ, st'.trace = st.trace ++ Δ ∧ ("" ∈ createdModules Δ → False) ∧
    ((phaseWrites Δ = [] ∧ st'.pipeline.failedDetail = st.pipeline.failedDetail) ∨
     (phaseWrites Δ = [PipelinePhase.failed] ∧ e.isSome = true ∧
       st'.pipeline.failedDetail ≠ []))

theorem WalkOK.refl (st : ExecState) (e : Option String) : WalkOK st st e :=
  ⟨fun h => h, [], by simp, by simp [createdModules], Or.inl ⟨rfl, rfl⟩⟩

theorem WalkOK.store_change (st : ExecState) (s : Store) (e : Option String) :
    WalkOK st { st with store := s } e :=
  ⟨fun h => h, [], by simp, by simp [createdModules], Or.inl ⟨rfl, rfl⟩⟩

theorem WalkOK.trans {st st1 st2 : ExecState} {e : Option String}
    (h1 : WalkOK st st1 none) (h2 : WalkOK st1 st2 e) : WalkOK st st2 e := by
  obtain ⟨hc1, Δ1, ht1, hm1, hd1⟩ := h1
  obtain ⟨hc2, Δ2, ht2, hm2, hd2⟩ := h2
  refine ⟨fun h => hc2 (hc1 h), Δ1 ++ Δ2, ?_, ?_, ?_⟩
  · rw [ht2, ht1, List.append_assoc]
  · intro hmem
    rw [createdModules_append, List.mem_append] at hmem
    rcases hmem with h | h
    · exact hm1 h
    · exact hm2 h
  · rcases hd1 with ⟨hp1, hfd1⟩ | ⟨_, habs, _⟩
    · rcases hd2 with ⟨hp2, hfd2⟩ | ⟨hp2, hs2, hfd2⟩
      · exact Or.inl ⟨by rw [phaseWrites_append, hp1, hp2]; rfl, hfd2.trans hfd1⟩
      · exact Or.inr ⟨by rw [phaseWrites_append, hp1, hp2]; rfl, hs2, hfd2⟩
    · simp at habs

theorem execLeafTask_walkOK (env : Env) (fuel : Nat) (opts : BlockOptions)
    (d : BlockData) (hosts : List String) (st1 : ExecState) :
    WalkOK st1 (execLeafTask env fuel opts d hosts st1).1
      (execLeafTask env fuel opts d hosts st1).2 := by
  unfold execLeafTask
  set t0 : Task := selectModule env (marshalBlock hosts (opts.whenCond ++ d.whenCond) d)
    d.unknownFields with ht0
  by_cases hm : t0.spec.moduleName = ""
  · simp only [hm, if_pos rfl]
    exact WalkOK.refl st1 _
  · simp only [if_neg hm]
    have hcreated1 : ("" ∈ createdModules
        [Event.taskCreated t0.spec.name t0.spec.moduleName] → False) := by
      intro hmem
      simp [createdModules] at hmem
      exact hm hmem.symm
    rcases hdrive : driveTask env fuel st1.store t0 with _ | r
    · simp only [hdrive]
      exact ⟨fun h => h, [Event.taskCreated t0.spec.name t0.spec.moduleName], rfl,
        hcreated1, Or.inl ⟨rfl, rfl⟩⟩
    · obtain ⟨herr, hspec, hrc, hcond, hphase, hevts⟩ := driveTask_spec env fuel _ _ r hdrive
      simp only [hdrive]
      have hΔcreated : ("" ∈ createdModules
          ([Event.taskCreated t0.spec.name t0.spec.moduleName] ++ r.events) → False) := by
        intro hmem
        rw [createdModules_append, List.mem_append] at hmem
        rcases hmem with h | h
        · exact hcreated1 h
        · rw [createdModules_of_taskEvents r.events hevts] at h
          simp at h
      have hΔphase : phaseWrites
          ([Event.taskCreated t0.spec.name t0.spec.moduleName] ++ r.events) = [] := by
        rw [phaseWrites_append, phaseWrites_of_taskEvents r.events hevts]
        simp [phaseWrites]
      rw [herr]
      simp only
      rcases hphase with hph | hph | hph
      · have hnf : r.task.IsFailed = false := by simp [Task.IsFailed, hph]
        simp only [hph, hnf, Bool.false_eq_true, if_false]
        refine ⟨?_, [Event.taskCreated t0.spec.name t0.spec.moduleName] ++ r.events,
          by simp, hΔcreated, Or.inl ⟨hΔphase, rfl⟩⟩
        intro h
        simp only [CountOK] at h ⊢
        omega
      · have hnf : r.task.IsFailed = false := by simp [Task.IsFailed, hph]
        simp only [hph, hnf, Bool.false_eq_true, if_false]
        refine ⟨?_, [Event.taskCreated t0.spec.name t0.spec.moduleName] ++ r.events,
          by simp, hΔcreated, Or.inl ⟨hΔphase, rfl⟩⟩
        intro h
        simp only [CountOK] at h ⊢
        omega
      · have hf : r.task.IsFailed = true := by simp [Task.IsFailed, hph]
        simp only [hph, hf, if_true]
        refine ⟨?_,
          ([Event.taskCreated t0.spec.name t0.spec.moduleName] ++ r.events) ++
            [Event.phaseSet PipelinePhase.failed],
          ?_, ?_, Or.inr ⟨?_, rfl, ?_⟩⟩
        · intro h
          simp only [CountOK, ExecState.setPhase] at h ⊢
          omega
        · simp [ExecState.setPhase, List.append_assoc]
        · intro hmem
          rw [createdModules_append, List.mem_append] at hmem
          rcases hmem with h | h
          · exact hΔcreated h
          · simp [createdModules] at h
        · rw [phaseWrites_append, hΔphase]
          simp [phaseWrites]
        · simp [ExecState.setPhase]

/-- The master invariant of the block walker: every walk preserves counter
accounting, creates only tasks with a module, and either writes no pipeline
phase (details unchanged) or writes exactly one Failed (with an error
returned and a failure detail recorded). -/
theorem execBlock_walkOK (env : Env) (fuel : Nat) (opts : BlockOptions)
    (blocks : List Block) (st : ExecState) :
    WalkOK st (execBlock env fuel opts blocks st).1 (execBlock env fuel opts blocks st).2 := by
  induction fuel, opts, blocks, st using execBlock.induct env with
  | case1 opts blocks st =>
    rw [execBlock]
    exact WalkOK.refl st _
  | case2 opts st f =>
    rw [execBlock]
    exact WalkOK.refl st none
  | case3 opts st f d nested rescueBs alwaysBs rest hdis ih =>
    rw [execBlock, if_pos hdis]
    exact ih
  | case4 opts st f d nested rescueBs alwaysBs rest hen e hmerge =>
    rw [execBlock, if_neg hen]
    simp only [hmerge]
    exact WalkOK.refl st _
  | case5 opts st f d nested rescueBs alwaysBs rest hen store1 hmerge hn st2 e heq ihn =>
    rw [execBlock, if_neg hen]
    simp only [hmerge]
    rw [if_pos hn]
    simp only [heq]
    rw [heq] at ihn
    exact WalkOK.trans (WalkOK.store_change st store1 none) ihn
  | case6 opts st f d nested rescueBs alwaysBs rest hen store1 hmerge hn st2 heqn st3 e heqr
      ihn ihr =>
    rw [execBlock, if_neg hen]
    simp only [hmerge]
    rw [if_pos hn]
    simp only [heqn]
    simp only [heqr]
    rw [heqn] at ihn
    have hres : WalkOK st2 st3 (some e) := by
      by_cases hc : st2.pipeline.phase = PipelinePhase.failed ∧ rescueBs.length ≠ 0
      · rw [if_pos hc] at heqr
        rw [heqr] at ihr
        exact ihr
      · rw [if_neg hc] at heqr
        cases heqr
    exact WalkOK.trans (WalkOK.store_change st store1 none) (WalkOK.trans ihn hres)
  | case7 opts st f d nested rescueBs alwaysBs rest hen store1 hmerge hn st2 heqn st3 heqr
      st4 e heqa ihn ihr iha =>
    rw [execBlock, if_neg hen]
    simp only [hmerge]
    rw [if_pos hn]
    simp only [heqn]
    simp only [heqr, heqa]
    rw [heqn] at ihn
    have hres : WalkOK st2 st3 none := by
      by_cases hc : st2.pipeline.phase = PipelinePhase.failed ∧ rescueBs.length ≠ 0
      · rw [if_pos hc] at heqr
        rw [heqr] at ihr
        exact ihr
      · rw [if_neg hc] at heqr
        cases heqr
        exact WalkOK.refl st2 none
    have halw : WalkOK st3 st4 (some e) := by
      by_cases hc : alwaysBs.length ≠ 0
      · rw [if_pos hc] at heqa
        rw [heqa] at iha
        exact iha
      · rw [if_neg hc] at heqa
        cases heqa
    exact WalkOK.trans (WalkOK.store_change st store1 none)
      (WalkOK.trans ihn (WalkOK.trans hres halw))
  | case8 opts st f d nested rescueBs alwaysBs rest hen store1 hmerge hn st2 heqn st3 heqr
      st4 heqa ihn ihr iha ihrest =>
    rw [execBlock, if_neg hen]
    simp only [hmerge]
    rw [if_pos hn]
    simp only [heqn]
    simp only [heqr, heqa]
    rw [heqn] at ihn
    have hres : WalkOK st2 st3 none := by
      by_cases hc : st2.pipeline.phase = PipelinePhase.failed ∧ rescueBs.length ≠ 0
      · rw [if_pos hc] at heqr
        rw [heqr] at ihr
        exact ihr
      · rw [if_neg hc] at heqr
        cases heqr
        exact WalkOK.refl st2 none
    have halw : WalkOK st3 st4 none := by
      by_cases hc : alwaysBs.length ≠ 0
      · rw [if_pos hc] at heqa
        rw [heqa] at iha
        exact iha
      · rw [if_neg hc] at heqa
        cases heqa
        exact WalkOK.refl st3 none
    exact WalkOK.trans (WalkOK.store_change st store1 none)
      (WalkOK.trans ihn (WalkOK.trans hres (WalkOK.trans halw ihrest)))
  | case9 opts st f d nested rescueBs alwaysBs rest hen store1 hmerge hnn hinc ihrest =>
    rw [execBlock, if_neg hen]
    simp only [hmerge]
    rw [if_neg hnn, if_pos hinc]
    exact WalkOK.trans (WalkOK.store_change st store1 none) ihrest
  | case10 opts st f d nested rescueBs alwaysBs rest hen store1 hmerge hnn hninc st2 e hleaf =>
    rw [execBlock, if_neg hen]
    simp only [hmerge]
    rw [if_neg hnn, if_neg hninc]
    simp only [hleaf]
    have h := execLeafTask_walkOK env (f + 1) opts d (blockHosts d opts.hosts)
      { store := store1, pipeline := st.pipeline, trace := st.trace }
    rw [hleaf] at h
    exact WalkOK.trans (WalkOK.store_change st store1 none) h
  | case11 opts st f d nested rescueBs alwaysBs rest hen store1 hmerge hnn hninc st2 hleaf
      ihrest =>
    rw [execBlock, if_neg hen]
    simp only [hmerge]
    rw [if_neg hnn, if_neg hninc]
    simp only [hleaf]
    have h := execLeafTask_walkOK env (f + 1) opts d (blockHosts d opts.hosts)
      { store := store1, pipeline := st.pipeline, trace := st.trace }
    rw [hleaf] at h
    exact WalkOK.trans (WalkOK.store_change st store1 none) (WalkOK.trans h ihrest)

theorem execRoles_walkOK (env : Env) (fuel : Nat) (serials : List String)
    (roles : List Role) (st : ExecState) :
    WalkOK st (execRoles env fuel serials roles st).1 (execRoles env fuel serials roles st).2 := by
  induction roles generalizing st with
  | nil => simp only [execRoles]; exact WalkOK.refl st none
  | cons r rs ih =>
    simp only [execRoles]
    rcases hmv : mergeVariable st.store r.vars serials with e | s1
    · exact WalkOK.refl st _
    · rcases hblk : execBlock env fuel ⟨serials, r.role, r.whenCond⟩ r.block
          { st with store := s1 } with ⟨st1, e1⟩
      have hb := execBlock_walkOK env fuel ⟨serials, r.role, r.whenCond⟩ r.block
        { st with store := s1 }
      rw [hblk] at hb
      cases e1 with
      | none =>
        simp only [hblk]
        exact WalkOK.trans (WalkOK.store_change st s1 none) (WalkOK.trans hb (ih st1))
      | some e =>
        simp only [hblk]
        exact WalkOK.trans (WalkOK.store_change st s1 none) hb

theorem execBatches_walkOK (env : Env) (fuel : Nat) (play : Play)
    (batches : List (List String)) (st : ExecState) :
    WalkOK st (execBatches env fuel play batches st).1
      (execBatches env fuel play batches st).2 := by
  induction batches generalizing st with
  | nil => simp only [execBatches]; exact WalkOK.refl st none
  | cons serials rst ih =>
    simp only [execBatches]
    by_cases hemp : serials.length = 0
    · rw [if_pos hemp]
      exact WalkOK.refl st _
    · rw [if_neg hemp]
      rcases hmv : mergeVariable st.store play.vars serials with e | s1
      · exact WalkOK.refl st _
      · rcases hpre : execBlock env fuel ⟨serials, "", []⟩ play.preTasks
            { st with store := s1 } with ⟨st1, e1⟩
        have hb1 := execBlock_walkOK env fuel ⟨serials, "", []⟩ play.preTasks
          { st with store := s1 }
        rw [hpre] at hb1
        cases e1 with
        | some e =>
          simp only [hpre]
          exact WalkOK.trans (WalkOK.store_change st s1 none) hb1
        | none =>
          simp only [hpre]
          rcases hrol : execRoles env fuel serials play.roles st1 with ⟨st2, e2⟩
          have hb2 := execRoles_walkOK env fuel serials play.roles st1
          rw [hrol] at hb2
          cases e2 with
          | some e =>
            simp only [hrol]
            exact WalkOK.trans (WalkOK.store_change st s1 none) (WalkOK.trans hb1 hb2)
          | none =>
            simp only [hrol]
            rcases htsk : execBlock env fuel ⟨serials, "", []⟩ play.tasks st2 with ⟨st3, e3⟩
            have hb3 := execBlock_walkOK env fuel ⟨serials, "", []⟩ play.tasks st2
            rw [htsk] at hb3
            cases e3 with
            | some e =>
              simp only [htsk]
              exact WalkOK.trans (WalkOK.store_change st s1 none)
                (WalkOK.trans hb1 (WalkOK.trans hb2 hb3))
            | none =>
              simp only [htsk]
              rcases hpost : execBlock env fuel ⟨serials, "", []⟩ play.tasks st3 with ⟨st4, e4⟩
              have hb4 := execBlock_walkOK env fuel ⟨serials, "", []⟩ play.tasks st3
              rw [hpost] at hb4
              cases e4 with
              | some e =>
                simp only [hpost]
                exact WalkOK.trans (WalkOK.store_change st s1 none)
                  (WalkOK.trans hb1 (WalkOK.trans hb2 (WalkOK.trans hb3 hb4)))
              | none =>
                simp only [hpost]
                exact WalkOK.trans (WalkOK.store_change st s1 none)
                  (WalkOK.trans hb1 (WalkOK.trans hb2 (WalkOK.trans hb3
                    (WalkOK.trans hb4 (ih st4)))))

theorem execPlay_walkOK (env : Env) (fuel : Nat) (play : Play) (st : ExecState) :
    WalkOK st (execPlay env fuel play st).1 (execPlay env fuel play st).2 := by
  unfold execPlay
  by_cases hdis : (!isEnabled play.tags env.tags env.skipTags) = true
  · rw [if_pos hdis]
    exact WalkOK.refl st none
  · rw [if_neg hdis]
    by_cases hemp : (env.getHostnames play.hosts).length = 0
    · rw [if_pos hemp]
      exact WalkOK.refl st none
    · rw [if_neg hemp]
      rcases hg : (if play.gatherFacts then gatherAllFacts env st.store (env.getHostnames play.hosts)
          else Except.ok st.store) with e | s1
      · simp only [hg]
        exact WalkOK.refl st _
      · simp only [hg]
        rcases hbt : (if play.runOnce then Except.ok [(env.getHostnames play.hosts).take 1]
            else groupHostBySerial (env.getHostnames play.hosts) play.serial) with e | batches
        · simp only [hbt]
          exact WalkOK.store_change st s1 _
        · simp only [hbt]
          have hb := execBatches_walkOK env fuel play batches { st with store := s1 }
          exact WalkOK.trans (WalkOK.store_change st s1 none) hb

theorem execPlays_walkOK (env : Env) (fuel : Nat) (plays : List Play) (st : ExecState) :
    WalkOK st (execPlays env fuel plays st).1 (execPlays env fuel plays st).2 := by
  induction plays generalizing st with
  | nil => simp only [execPlays]; exact WalkOK.refl st none
  | cons p ps ih =>
    simp only [execPlays]
    rcases hp : execPlay env fuel p st with ⟨st1, e1⟩
    have hb := execPlay_walkOK env fuel p st
    rw [hp] at hb
    cases e1 with
    | some e =>
      simp only [hp]
      exact hb
    | none =>
      simp only [hp]
      exact WalkOK.trans hb (ih st1)

theorem setPhase_trace (st : ExecState) (p : PipelinePhase) :
    (st.setPhase p).trace = st.trace ++ [Event.phaseSet p] := rfl

theorem setPhase_phase (st : ExecState) (p : PipelinePhase) :
    (st.setPhase p).pipeline.phase = p := rfl

theorem setPhase_detail (st : ExecState) (p : PipelinePhase) :
    (st.setPhase p).pipeline.failedDetail = st.pipeline.failedDetail := rfl

theorem setPhase_counts (st : ExecState) (p : PipelinePhase) :
    (st.setPhase p).pipeline.taskResult = st.pipeline.taskResult := rfl

theorem phaseWrites_phaseSet (p : PipelinePhase) :
    phaseWrites [Event.phaseSet p] = [p] := rfl

theorem createdModules_phaseSet (p : PipelinePhase) :
    createdModules [Event.phaseSet p] = [] := rfl

/-- The exact shape of the pipeline-phase write sequence of one `Exec` run
from a pristine state: a clean run writes Running then Succeeded; a run
with a failed task writes Running, Failed (at the failing task), then the
deferred finalizer's Succeeded and the corrective Failed. -/
theorem Exec_phase_shape (env : Env) (pb : Playbook) (fuel : Nat) (st0 : ExecState)
    (h0 : phaseWrites st0.trace = []) (h1 : st0.pipeline.failedDetail = []) :
    (phaseWrites (Exec env pb fuel st0).1.trace
        = [PipelinePhase.running, PipelinePhase.succeed] ∧
      (Exec env pb fuel st0).1.pipeline.phase = PipelinePhase.succeed ∧
      (Exec env pb fuel st0).1.pipeline.failedDetail = []) ∨
    (phaseWrites (Exec env pb fuel st0).1.trace
        = [PipelinePhase.running, PipelinePhase.failed, PipelinePhase.succeed,
           PipelinePhase.failed] ∧
      (Exec env pb fuel st0).1.pipeline.phase = PipelinePhase.failed ∧
      (Exec env pb fuel st0).2.isSome = true) := by
  unfold Exec
  rcases hp : execPlays env fuel pb.play (st0.setPhase PipelinePhase.running) with ⟨st1, err⟩
  have hb := execPlays_walkOK env fuel pb.play (st0.setPhase PipelinePhase.running)
  rw [hp] at hb
  obtain ⟨_, Δ, htr, _, hcase⟩ := hb
  simp only [setPhase_trace, setPhase_detail] at htr hcase
  have htr1 : phaseWrites st1.trace = [PipelinePhase.running] ++ phaseWrites Δ := by
    rw [htr, List.append_assoc, phaseWrites_append, phaseWrites_append, h0,
      phaseWrites_phaseSet]
    simp
  rcases hcase with ⟨hΔ, hdet⟩ | ⟨hΔ, herr, hdet⟩
  · left
    have hdet1 : st1.pipeline.failedDetail = [] := by
      rw [hdet, h1]
    simp only [hp]
    rw [if_neg (by rw [setPhase_detail, hdet1]; simp)]
    refine ⟨?_, setPhase_phase _ _, by rw [setPhase_detail, hdet1]⟩
    rw [setPhase_trace, phaseWrites_append, htr1, hΔ, phaseWrites_phaseSet]
    simp
  · right
    have hdet1 : st1.pipeline.failedDetail ≠ [] := by simpa using hdet
    simp only [hp]
    rw [if_pos (by rw [setPhase_detail]
                   exact fun hh => hdet1 (List.length_eq_zero.mp hh))]
    refine ⟨?_, setPhase_phase _ _, by simpa using herr⟩
    rw [setPhase_trace, setPhase_trace, phaseWrites_append, phaseWrites_append, htr1, hΔ,
      phaseWrites_phaseSet, phaseWrites_phaseSet]
    simp

/-- Every task created during `Exec` carries a non-empty module name. -/
theorem Exec_created_modules (env : Env) (pb : Playbook) (fuel : Nat) (st0 : ExecState)
    (h : "" ∈ createdModules st0.trace → False) :
    "" ∈ createdModules (Exec env pb fuel st0).1.trace → False := by
  unfold Exec
  rcases hp : execPlays env fuel pb.play (st0.setPhase PipelinePhase.running) with ⟨st1, err⟩
  have hb := execPlays_walkOK env fuel pb.play (st0.setPhase PipelinePhase.running)
  rw [hp] at hb
  obtain ⟨_, Δ, htr, hmod, _⟩ := hb
  rw [setPhase_trace] at htr
  have htr1 : ("" ∈ createdModules st1.trace → False) := by
    rw [htr, List.append_assoc, createdModules_append, createdModules_append,
      createdModules_phaseSet]
    intro hmem
    rw [List.mem_append] at hmem
    rcases hmem with h' | h'
    · exact h h'
    · rw [List.nil_append] at h'
      exact hmod h'
  intro hmem
  simp only [hp] at hmem
  by_cases hfd : st1.pipeline.failedDetail.length ≠ 0
  · rw [if_pos (by rw [setPhase_detail]; exact hfd)] at hmem
    rw [setPhase_trace, setPhase_trace, List.append_assoc, createdModules_append,
      createdModules_append, createdModules_phaseSet, createdModules_phaseSet,
      List.mem_append] at hmem
    rcases hmem with h' | h'
    · exact htr1 h'
    · cases h'
  · rw [if_neg (by rw [setPhase_detail]; exact hfd)] at hmem
    rw [setPhase_trace, createdModules_append, createdModules_phaseSet,
      List.mem_append] at hmem
    rcases hmem with h' | h'
    · exact htr1 h'
    · cases h'

/-- `Exec` preserves counter accounting. -/
theorem Exec_counts (env : Env) (pb : Playbook) (fuel : Nat) (st0 : ExecState)
    (h : CountOK st0.pipeline.taskResult) :
    CountOK (Exec env pb fuel st0).1.pipeline.taskResult := by
  unfold Exec
  rcases hp : execPlays env fuel pb.play (st0.setPhase PipelinePhase.running) with ⟨st1, err⟩
  have hb := execPlays_walkOK env fuel pb.play (st0.setPhase PipelinePhase.running)
  rw [hp] at hb
  obtain ⟨hc, _⟩ := hb
  have hc1 : CountOK st1.pipeline.taskResult := hc (by simpa [ExecState.setPhase] using h)
  simp only [hp]
  by_cases hfd : st1.pipeline.failedDetail.length ≠ 0
  · rw [if_pos (by simpa [ExecState.setPhase] using hfd)]
    simpa [ExecState.setPhase] using hc1
  · rw [if_neg (by simpa [ExecState.setPhase] using hfd)]
    simpa [ExecState.setPhase] using hc1

/-! ### Loop-item hygiene machinery -/

theorem scopeGet_scopeRemove_self (s : Scope) (k : String) :
    scopeGet (scopeRemove s k) k = none := by
  induction s with
  | nil => rfl
  | cons kv rest ih =>
    rcases kv with ⟨k', v⟩
    by_cases h : k' = k
    · simp [scopeRemove, h, ih]
    · simp [scopeRemove, scopeGet, h, ih]

theorem scopeGet_scopeRemove_ne (s : Scope) (k' k : String) (h : k' ≠ k) :
    scopeGet (scopeRemove s k') k = scopeGet s k := by
  induction s with
  | nil => rfl
  | cons kv rest ih =>
    rcases kv with ⟨k'', v⟩
    by_cases h' : k'' = k'
    · subst h'
      simp [scopeRemove, scopeGet, h, ih]
    · by_cases h'' : k'' = k
      · have hk : ¬ k = k' := fun hc => h hc.symm
        simp [scopeRemove, scopeGet, h', h'', hk]
      · simp [scopeRemove, scopeGet, h', h'', ih]

theorem scopeGet_scopeSet_ne (s : Scope) (k' k : String) (v : Value) (h : k' ≠ k) :
    scopeGet (scopeSet s k' v) k = scopeGet s k := by
  simp only [scopeSet, scopeGet, h, if_neg]
  exact scopeGet_scopeRemove_ne s k' k h

theorem scopeGet_applyKV_ne (s : Scope) (kv : String × Value) (k : String)
    (h : kv.1 ≠ k) : scopeGet (applyKV s kv) k = scopeGet s k := by
  unfold applyKV
  split
  · exact scopeGet_scopeRemove_ne s kv.1 k h
  · exact scopeGet_scopeSet_ne s kv.1 k _ h

theorem overlay_setOverlay (st : Store) (host h : String) (s : Scope) :
    (st.setOverlay host s).overlay h = if host = h then s else st.overlay h := by
  unfold Store.overlay Store.setOverlay
  simp only
  induction st.overlays with
  | nil =>
    by_cases hh : host = h <;>
      simp [Store.setOverlay.go, Store.overlay.scopeFind, hh]
  | cons p rest ih =>
    rcases p with ⟨h', s'⟩
    by_cases h1 : h' = host
    · subst h1
      by_cases hh : h' = h <;> simp [Store.setOverlay.go, Store.overlay.scopeFind, hh]
    · by_cases hh : h' = h
      · subst hh
        have : ¬ host = h' := fun hc => h1 hc.symm
        simp [Store.setOverlay.go, Store.overlay.scopeFind, h1, this]
      · simp only [Store.setOverlay.go, h1, if_neg]
        simp only [Store.overlay.scopeFind, hh, if_neg]
        exact ih

theorem mergeRuntime_failKeys (st : Store) (host : String) (kvs : List (String × Value))
    (st' : Store) (h : st.mergeRuntime host kvs = Except.ok st') :
    st'.failKeys = st.failKeys := by
  unfold Store.mergeRuntime at h
  split at h
  · cases h
  · cases h
    rfl

/-- A store whose overlays never bind the loop `item` variable. -/
def itemFree (st : Store) : Prop :=
  ∀ host, scopeGet (st.overlay host) "item" = none

theorem mergeRuntime_itemFree (st : Store) (host : String) (kvs : List (String × Value))
    (st' : Store) (h : st.mergeRuntime host kvs = Except.ok st')
    (hkeys : ∀ kv ∈ kvs, kv.1 ≠ "item") (hfree : itemFree st) : itemFree st' := by
  unfold Store.mergeRuntime at h
  split at h
  · cases h
  · cases h
    intro h'
    rw [overlay_setOverlay]
    by_cases hh : host = h'
    · rw [if_pos hh]
      have : ∀ (l : List (String × Value)) (s : Scope),
          (∀ kv ∈ l, kv.1 ≠ "item") → scopeGet s "item" = none →
          scopeGet (l.foldl applyKV s) "item" = none := by
        intro l
        induction l with
        | nil => intro s _ hs; exact hs
        | cons kv rest ih =>
          intro s hl hs
          simp only [List.foldl_cons]
          exact ih _ (fun kv' hm => hl kv' (List.mem_cons_of_mem _ hm))
            (by rw [scopeGet_applyKV_ne _ _ _ (hl kv (List.mem_cons_self _ _))]; exact hs)
      exact this kvs _ hkeys (hfree host)
    · rw [if_neg hh]
      exact hfree h'

/-- Clearing the item after a successful set cannot fail: merges do not
change the store's failure behaviour. -/
theorem clear_after_set (st : Store) (host : String) (v : Value) (st1 : Store)
    (h : st.mergeRuntime host [("item", v)] = Except.ok st1) :
    ∃ st2, st1.mergeRuntime host [("item", Value.null)] = Except.ok st2 := by
  have hkeys := mergeRuntime_failKeys st host _ st1 h
  unfold Store.mergeRuntime at h ⊢
  split at h
  · cases h
  · next hfail =>
    rw [if_neg (by rw [hkeys]; exact hfail)]
    exact ⟨_, rfl⟩

/-- Clearing the item really removes it from the host's overlay and leaves
other hosts alone. -/
theorem clear_item_itemFree (st : Store) (host : String) (st' : Store)
    (h : st.mergeRuntime host [("item", Value.null)] = Except.ok st')
    (hfree : ∀ h', h' ≠ host → scopeGet (st.overlay h') "item" = none) :
    itemFree st' := by
  unfold Store.mergeRuntime at h
  split at h
  · cases h
  · cases h
    intro h'
    rw [overlay_setOverlay]
    by_cases hh : host = h'
    · rw [if_pos hh]
      simp only [List.foldl_cons, List.foldl_nil, applyKV]
      exact scopeGet_scopeRemove_self _ _
    · rw [if_neg hh]
      exact hfree h' (fun hc => hh hc.symm)

theorem mergeRuntime_overlay_ne (st : Store) (host : String) (kvs : List (String × Value))
    (st' : Store) (h : st.mergeRuntime host kvs = Except.ok st') (h' : String)
    (hne : h' ≠ host) : st'.overlay h' = st.overlay h' := by
  unfold Store.mergeRuntime at h
  split at h
  · cases h
  · cases h
    rw [overlay_setOverlay]
    exact if_neg fun hc => hne hc.symm

theorem runItems_itemFree (env : Env) (st : Store) (task : Task) (host : String)
    (items : List Value) (stdout stderr : String) (hfree : itemFree st) :
    itemFree (runItems env st task host items stdout stderr).1 := by
  induction items generalizing st stdout stderr with
  | nil => simpa [runItems]
  | cons item rest ih =>
    unfold runItems
    rcases hset : st.mergeRuntime host [("item", item)] with e | st1
    · simpa [hset]
    · simp only [hset]
      rcases hmod : executeModule env st1 task host with ⟨⟨out, err⟩, evs⟩
      simp only
      obtain ⟨st2, hclear⟩ := clear_after_set st host item st1 hset
      rw [hclear]
      simp only
      have hst2 : itemFree st2 := by
        refine clear_item_itemFree st1 host st2 hclear ?_
        intro h' hne
        rw [mergeRuntime_overlay_ne st host _ st1 hset h' hne]
        exact hfree h'
      rcases hrec : runItems env st2 task host rest out err with ⟨st3, evs', o, e⟩
      simp only
      have := ih st2 out err hst2
      rw [hrec] at this
      exact this

theorem runHost_itemFree (env : Env) (st : Store) (task : Task) (host : String)
    (hreg : task.spec.register ≠ "item") (hfree : itemFree st) :
    itemFree (runHost env st task host).1 := by
  unfold runHost
  rcases hbody : runHostBody env st task host with ⟨st1, evs, stdout, stderr⟩
  have hst1 : itemFree st1 := by
    unfold runHostBody at hbody
    simp only [Store.getAll] at hbody
    split at hbody
    · split at hbody
      · cases hbody; exact hfree
      · cases hbody; exact hfree
      · split at hbody
        · cases hbody; exact hfree
        · next items _ =>
          have := runItems_itemFree env st task host items "" "" hfree
          rw [hbody] at this
          exact this
    · split at hbody
      · cases hbody; exact hfree
      · next items _ =>
        have := runItems_itemFree env st task host items "" "" hfree
        rw [hbody] at this
        exact this
  simp only [hbody]
  unfold runHostFinish
  split
  · rcases hmr : st1.mergeRuntime host
        [(task.spec.register, Value.strMap [("stdout", stdout), ("stderr", stderr)])] with e | st2
    · simpa [hmr]
    · simp only [hmr]
      exact mergeRuntime_itemFree st1 host _ st2 hmr
        (by intro kv hm
            rw [List.mem_singleton] at hm
            subst hm
            simpa using hreg) hst1
  · simpa

theorem runHosts_itemFree (env : Env) (st : Store) (task : Task) (hosts : List String)
    (hreg : task.spec.register ≠ "item") (hfree : itemFree st) :
    itemFree (runHosts env st task hosts).1 := by
  induction hosts generalizing st with
  | nil => simpa [runHosts]
  | cons h hs ih =>
    unfold runHosts
    rcases hrun : runHost env st task h with ⟨st1, evs, res⟩
    simp only
    have hst1 := runHost_itemFree env st task h hreg hfree
    rw [hrun] at hst1
    rcases hrest : runHosts env st1 task hs with ⟨st2, evs2, rs⟩
    simp only
    have := ih st1 hst1
    rw [hrest] at this
    exact this

/-- One step of the clear-follows-invocation automaton.  State: (still ok,
the previous event was a `moduleInvoked` awaiting its `itemCleared`). -/
def cfiStep (s : Bool × Bool) (ev : Event) : Bool × Bool :=
  match s.2, ev with
  | true, Event.itemCleared _ => (s.1, false)
  | true, _ => (false, false)
  | false, Event.moduleInvoked _ _ => (s.1, true)
  | false, _ => (s.1, false)

/-- Run the automaton over a trace. -/
def cfiRun (s : Bool × Bool) (evs : List Event) : Bool × Bool :=
  evs.foldl cfiStep s

/-- Every `moduleInvoked` event is immediately followed by an `itemCleared`
event: the clearing merge runs right after each module invocation, whatever
the invocation's outcome. -/
def clearsFollowInvoc (evs : List Event) : Bool :=
  (cfiRun (true, false) evs).1 && !(cfiRun (true, false) evs).2

theorem cfiRun_append (s : Bool × Bool) (a b : List Event) :
    cfiRun s (a ++ b) = cfiRun (cfiRun s a) b := by
  simp [cfiRun, List.foldl_append]

theorem clearsFollowInvoc_append (a b : List Event)
    (ha : clearsFollowInvoc a = true) (hb : clearsFollowInvoc b = true) :
    clearsFollowInvoc (a ++ b) = true := by
  unfold clearsFollowInvoc at *
  rcases hra : cfiRun (true, false) a with ⟨ok, exp⟩
  rw [hra] at ha
  simp only [Bool.and_eq_true, Bool.not_eq_true'] at ha
  obtain ⟨hok, hexp⟩ := ha
  subst hok hexp
  rw [cfiRun_append, hra]
  exact hb

theorem executeModule_events_shape (env : Env) (st : Store) (task : Task) (host : String) :
    (executeModule env st task host).2 = [] ∨
    (executeModule env st task host).2 = [Event.moduleInvoked host task.spec.moduleName] := by
  unfold executeModule invokeModule
  simp only [Store.getAll]
  repeat' split
  all_goals simp

theorem runItems_cfi (env : Env) (st : Store) (task : Task) (host : String)
    (items : List Value) (stdout stderr : String) :
    clearsFollowInvoc (runItems env st task host items stdout stderr).2.1 = true := by
  induction items generalizing st stdout stderr with
  | nil => simp [runItems]; rfl
  | cons item rest ih =>
    unfold runItems
    rcases hset : st.mergeRuntime host [("item", item)] with e | st1
    · simp only [hset]
      rfl
    · simp only [hset]
      rcases hmod : executeModule env st1 task host with ⟨⟨out, err⟩, evs⟩
      simp only
      obtain ⟨st2, hclear⟩ := clear_after_set st host item st1 hset
      rw [hclear]
      simp only
      rcases hrec : runItems env st2 task host rest out err with ⟨st3, evs', o, e⟩
      simp only
      have hevs' := ih st2 out err
      rw [hrec] at hevs'
      have hshape := executeModule_events_shape env st1 task host
      rw [hmod] at hshape
      unfold clearsFollowInvoc at hevs' ⊢
      rcases hshape with h | h
      · subst h
        rw [List.nil_append, cfiRun_append]
        have : cfiRun (true, false) [Event.itemCleared host] = (true, false) := rfl
        rw [this]
        exact hevs'
      · subst h
        rw [cfiRun_append, cfiRun_append]
        have h1 : cfiRun (true, false) [Event.moduleInvoked host task.spec.moduleName]
            = (true, true) := rfl
        have h2 : cfiRun (true, true) [Event.itemCleared host] = (true, false) := rfl
        rw [h1, h2]
        exact hevs'

theorem runHost_cfi (env : Env) (st : Store) (task : Task) (host : String) :
    clearsFollowInvoc (runHost env st task host).2.1 = true := by
  unfold runHost
  rcases hbody : runHostBody env st task host with ⟨st1, evs, stdout, stderr⟩
  have hevs : clearsFollowInvoc evs = true := by
    unfold runHostBody at hbody
    simp only [Store.getAll] at hbody
    split at hbody
    · split at hbody
      · cases hbody; rfl
      · cases hbody; rfl
      · split at hbody
        · cases hbody; rfl
        · next items _ =>
          have := runItems_cfi env st task host items "" ""
          rw [hbody] at this
          exact this
    · split at hbody
      · cases hbody; rfl
      · next items _ =>
        have := runItems_cfi env st task host items "" ""
        rw [hbody] at this
        exact this
  simp only [hbody]
  unfold runHostFinish
  split
  · rcases hmr : st1.mergeRuntime host
        [(task.spec.register, Value.strMap [("stdout", stdout), ("stderr", stderr)])] with e | st2
    · simp only [hmr]
      simpa using hevs
    · simp only [hmr]
      exact clearsFollowInvoc_append evs _ hevs rfl
  · exact clearsFollowInvoc_append evs _ hevs rfl

theorem runHosts_cfi (env : Env) (st : Store) (task : Task) (hosts : List String) :
    clearsFollowInvoc (runHosts env st task hosts).2.1 = true := by
  induction hosts generalizing st with
  | nil => rfl
  | cons h hs ih =>
    unfold runHosts
    rcases hrun : runHost env st task h with ⟨st1, evs, res⟩
    simp only
    have h1 := runHost_cfi env st task h
    rw [hrun] at h1
    rcases hrest : runHosts env st1 task hs with ⟨st2, evs2, rs⟩
    simp only
    have h2 := ih st1
    rw [hrest] at h2
    exact clearsFollowInvoc_append evs evs2 h1 h2

theorem executeTask_cfi (env : Env) (st : Store) (task : Task) :
    clearsFollowInvoc (executeTask env st task).events = true := by
  unfold executeTask
  rcases hruns : runHosts env st task task.spec.hosts with ⟨st1, evs, results⟩
  have := runHosts_cfi env st task task.spec.hosts
  rw [hruns] at this
  simpa using this

theorem executeTask_itemFree (env : Env) (st : Store) (task : Task)
    (hreg : task.spec.register ≠ "item") (hfree : itemFree st) :
    itemFree (executeTask env st task).store := by
  unfold executeTask
  rcases hruns : runHosts env st task task.spec.hosts with ⟨st1, evs, results⟩
  have := runHosts_itemFree env st task task.spec.hosts hreg hfree
  rw [hruns] at this
  simpa using this

/-- `selectModule` leaves the task untouched when no unrecognized field
names a registered module. -/
theorem selectModule_none (env : Env) (t : Task) (fields : List (String × Value))
    (h : ∀ kv ∈ fields, env.findModule kv.1 = none) : selectModule env t fields = t := by
  induction fields with
  | nil => rfl
  | cons kv rest ih =>
    unfold selectModule
    rw [h kv (List.mem_cons_self _ _)]
    exact ih fun kv' hm => h kv' (List.mem_cons_of_mem _ hm)

/-! ### Claim fixtures -/

/-- A one-host task record with the given directives. -/
def mkTask (name mod register : String) (failedWhen : List String)
    (loop : Option (List Value)) : Task :=
  { spec :=
      { name := name, hosts := ["a"], whenCond := [], failedWhen := failedWhen,
        ignoreError := false, register := register, loop := loop,
        moduleName := mod, moduleArgs := Value.null }
    status :=
      { phase := TaskPhase.pending, restartCount := 0, conditions := [],
        failedDetail := [] } }

/-- An empty store with no injected failures. -/
def emptyStore : Store := { overlays := [], failKeys := [] }

/-- A store that refuses merges of the register name `r`. -/
def storeFailR : Store := { overlays := [], failKeys := ["r"] }

/-- A composite block whose nested task fails and which carries non-empty
rescue and always lists. -/
def compositeC1 : Block :=
  compositeBlock "comp" [leafBlock "failtask" "failmod"]
    [leafBlock "resctask" "okmod"] [leafBlock "alwtask" "okmod"]

def pbC1 : Playbook := ⟨[mkPlay [compositeC1] []]⟩

def pbC3 : Playbook := ⟨[mkPlay [leafBlock "boomtask" "failmod"] []]⟩

/-- A play with distinct Tasks and PostTasks lists. -/
def playC4 : Play := mkPlay [leafBlock "t" "okmod"] [leafBlock "p" "okmod"]

def pbC4 : Playbook := ⟨[playC4]⟩

def pbClean : Playbook := ⟨[mkPlay [leafBlock "t" "okmod"] []]⟩

/-- An environment whose fact gatherer fails on every host. -/
def envGatherFail : Env :=
  { envBase with gather := fun _ => Except.error "connection refused" }

def pbC6 : Playbook := ⟨[{ mkPlay [leafBlock "t" "okmod"] [] with gatherFacts := true }]⟩

/-- A task whose `failed_when` parses true. -/
def taskFW : Task := mkTask "fw" "okmod" "" ["true"] none

/-- A task registering its result under `r`. -/
def taskReg : Task := mkTask "regtask" "okmod" "r" [] none

/-- A task with a loop that registers its result under the name `item`. -/
def taskItemReg : Task := mkTask "itemreg" "okmod" "item" [] (some [Value.num 1])

/-- A looped task whose module always fails. -/
def taskLoopFail : Task := mkTask "looptask" "failmod" "" [] (some [Value.num 1, Value.num 2])

/-- A leaf block whose only unrecognized field names no registered module. -/
def noModData : BlockData :=
  { name := "ghost", tags := [], whenCond := [], vars := [], runOnce := false,
    includeTasks := "", unknownFields := [("nosuch", Value.null)], failedWhen := [],
    register := "", loop := none, ignoreError := false }

/-! ### The claims -/

/-- C1: the claim says that when a composite block's nested walk fails the
walker runs rescue (when non-empty) and then always before propagating the
failure.  The code returns the nested error before the rescue/always
checks: on this composite block with a failing nested task and non-empty
rescue and always lists, only the nested task is ever created and the error
propagates immediately — neither the rescue task nor the always task
runs. -/
theorem C1_rescue_always_not_walked :
    compositeC1.rescueBlocks ≠ [] ∧ compositeC1.alwaysBlocks ≠ [] ∧
    createdNames (Exec envBase pbC1 10 initState).1.trace = ["failtask"] ∧
    (Exec envBase pbC1 10 initState).2 = some "task failtask run failed" := by
  refine ⟨?_, ?_, rfl, rfl⟩
  · intro h; cases h
  · intro h; cases h

/-- C2 counterexample: the claim says `failed_when` is evaluated against the
post-execution scope, after the module invocation.  On this task the module
is registered, yet the run produces the failed-by-failedWhen result with an
empty event list: the module is never invoked, so the evaluation cannot be
post-execution. -/
theorem C2_counterexample_no_invocation :
    (envBase.findModule taskFW.spec.moduleName).isSome = true ∧
    taskFW.spec.failedWhen = ["true"] ∧
    executeModule envBase emptyStore taskFW "a" = (("", "failed by failedWhen"), []) :=
  ⟨rfl, rfl, rfl⟩

/-- C2 (amended): `failed_when` is evaluated against the host scope fetched
at dispatch time, before the module invocation; when it parses true the
module is skipped (no invocation event) and the result is stdout `""`,
stderr `"failed by failedWhen"`. -/
theorem C2_failedWhen_before_invocation (env : Env) (st : Store) (task : Task)
    (host : String) (hfw : 0 < task.spec.failedWhen.length)
    (htrue : parseBool (st.overlay host) task.spec.failedWhen = Except.ok true) :
    executeModule env st task host = (("", "failed by failedWhen"), []) := by
  unfold executeModule
  simp only [Store.getAll]
  rw [if_pos hfw]
  simp only [htrue]

/-- C2 witness: the amended claim at a concrete input. -/
theorem C2_failedWhen_before_invocation_witness :
    0 < taskFW.spec.failedWhen.length ∧
    parseBool (emptyStore.overlay "a") taskFW.spec.failedWhen = Except.ok true ∧
    executeModule envBase emptyStore taskFW "a" = (("", "failed by failedWhen"), []) :=
  ⟨by decide, rfl,
    C2_failedWhen_before_invocation envBase emptyStore taskFW "a" (by decide) rfl⟩

/-- C3 counterexample: on a playbook whose one task fails, the sequence of
pipeline phase writes is Pending, Running, Failed, Succeeded, Failed — the
deferred finalizer writes Succeeded after Failed and then Failed after
Succeeded, so the phase does not observe only the allowed transitions. -/
theorem C3_counterexample_phase_not_monotone :
    ¬ PhaseMonotone (PipelinePhase.pending ::
      phaseWrites (Exec envBase pbC3 10 initState).1.trace) := by decide

/-- C3 (amended): from a pristine state the phase-write sequence of `Exec`
is exactly Running, Succeeded on a clean run, and exactly Running, Failed,
Succeeded, Failed on a run with a failed task (the deferred finalizer
always writes Succeeded and then corrects to Failed when failure details
exist); the phase at return is Succeeded iff no failure detail was
recorded. -/
theorem C3_phase_write_shape (env : Env) (pb : Playbook) (fuel : Nat) (st0 : ExecState)
    (h0 : phaseWrites st0.trace = []) (h1 : st0.pipeline.failedDetail = []) :
    (phaseWrites (Exec env pb fuel st0).1.trace
        = [PipelinePhase.running, PipelinePhase.succeed] ∧
      (Exec env pb fuel st0).1.pipeline.phase = PipelinePhase.succeed ∧
      (Exec env pb fuel st0).1.pipeline.failedDetail = []) ∨
    (phaseWrites (Exec env pb fuel st0).1.trace
        = [PipelinePhase.running, PipelinePhase.failed, PipelinePhase.succeed,
           PipelinePhase.failed] ∧
      (Exec env pb fuel st0).1.pipeline.phase = PipelinePhase.failed ∧
      (Exec env pb fuel st0).2.isSome = true) :=
  Exec_phase_shape env pb fuel st0 h0 h1

/-- C3 witness: the amended claim at a concrete clean run. -/
theorem C3_phase_write_shape_witness :
    phaseWrites initState.trace = [] ∧ initState.pipeline.failedDetail = [] ∧
    ((phaseWrites (Exec envBase pbClean 10 initState).1.trace
        = [PipelinePhase.running, PipelinePhase.succeed] ∧
      (Exec envBase pbClean 10 initState).1.pipeline.phase = PipelinePhase.succeed ∧
      (Exec envBase pbClean 10 initState).1.pipeline.failedDetail = []) ∨
    (phaseWrites (Exec envBase pbClean 10 initState).1.trace
        = [PipelinePhase.running, PipelinePhase.failed, PipelinePhase.succeed,
           PipelinePhase.failed] ∧
      (Exec envBase pbClean 10 initState).1.pipeline.phase = PipelinePhase.failed ∧
      (Exec envBase pbClean 10 initState).2.isSome = true)) :=
  ⟨rfl, rfl, C3_phase_write_shape envBase pbClean 10 initState rfl rfl⟩

/-- C4: the claim says the fourth section walked per batch is the play's
distinct PostTasks list.  On this play with Tasks `[t]` and non-empty
PostTasks `[p]`, the walker creates the task `t` twice and never creates
`p`: the source's "post tasks" call passes `play.Tasks` again. -/
theorem C4_tasks_walked_twice_postTasks_never :
    playC4.postTasks = [leafBlock "p" "okmod"] ∧
    createdNames (Exec envBase pbC4 10 initState).1.trace = ["t", "t"] :=
  ⟨rfl, rfl⟩

/-- C5: the claim says a failing register merge replaces stderr and the
HostResult is still emitted.  On this one-host task whose register merge
fails, the appended TaskCondition holds zero host results, no host-result
event is emitted, and the task even ends Succeeded — the per-host unit
returns from its deferred function before sending the result. -/
theorem C5_register_merge_failure_emits_no_result :
    taskReg.spec.hosts = ["a"] ∧
    (executeTask envBase storeFailR taskReg).task.status.conditions
      = [{ hostResults := [] }] ∧
    emittedResults (executeTask envBase storeFailR taskReg).events = [] ∧
    (executeTask envBase storeFailR taskReg).task.status.phase = TaskPhase.success :=
  ⟨rfl, rfl, rfl, rfl⟩

/-- C6: the claim says a gather failure aborts Exec with the pipeline phase
Failed at return.  The abort happens (the error is returned and no task is
created), but no failure detail is recorded, so the deferred finalizer sets
the phase to Succeeded, not Failed. -/
theorem C6_gather_error_aborts_but_phase_succeeded :
    (Exec envGatherFail pbC6 10 initState).2 = some "connection refused" ∧
    createdNames (Exec envGatherFail pbC6 10 initState).1.trace = [] ∧
    (Exec envGatherFail pbC6 10 initState).1.pipeline.phase = PipelinePhase.succeed :=
  ⟨rfl, rfl, rfl⟩

/-- C7: every task persisted during `Exec` carries a non-empty module name,
and a leaf block none of whose unrecognized fields names a registered
module fails materialization with the fatal no-module error, leaving the
state (hence the created-task trace) untouched. -/
theorem C7_persisted_tasks_have_module :
    (∀ (env : Env) (pb : Playbook) (fuel : Nat) (st0 : ExecState),
        st0.trace = [] →
        ∀ m ∈ createdModules (Exec env pb fuel st0).1.trace, m ≠ "") ∧
    (∀ (env : Env) (fuel : Nat) (opts : BlockOptions) (d : BlockData)
        (hosts : List String) (st1 : ExecState),
        (∀ kv ∈ d.unknownFields, env.findModule kv.1 = none) →
        execLeafTask env fuel opts d hosts st1
          = (st1, some ("no module/action detected in task: " ++ d.name))) := by
  constructor
  · intro env pb fuel st0 h0 m hm hEq
    subst hEq
    exact Exec_created_modules env pb fuel st0 (by rw [h0]; intro h; cases h) hm
  · intro env fuel opts d hosts st1 hnone
    unfold execLeafTask
    rw [selectModule_none env _ d.unknownFields hnone]
    rfl

/-- C7 witness: both parts at concrete inputs. -/
theorem C7_persisted_tasks_have_module_witness :
    (∀ m ∈ createdModules (Exec envBase pbClean 10 initState).1.trace, m ≠ "") ∧
    execLeafTask envBase 1 ⟨["a"], "", []⟩ noModData ["a"] initState
      = (initState, some ("no module/action detected in task: " ++ noModData.name)) :=
  ⟨C7_persisted_tasks_have_module.1 envBase pbClean 10 initState rfl,
   C7_persisted_tasks_have_module.2 envBase 1 ⟨["a"], "", []⟩ noModData ["a"] initState
     (by intro kv hm
         simp only [noModData, List.mem_singleton] at hm
         subst hm
         rfl)⟩

/-- C8: at `Exec` return the pipeline task counters satisfy
`total = success + ignored + failed`, given they did initially (every
counted task ends in exactly one of the three buckets). -/
theorem C8_counter_accounting (env : Env) (pb : Playbook) (fuel : Nat) (st0 : ExecState)
    (h : CountOK st0.pipeline.taskResult) :
    CountOK (Exec env pb fuel st0).1.pipeline.taskResult :=
  Exec_counts env pb fuel st0 h

/-- C8 witness: the invariant from the pristine state on a playbook that
actually runs tasks. -/
theorem C8_counter_accounting_witness :
    CountOK initState.pipeline.taskResult ∧
    CountOK (Exec envBase pbC4 10 initState).1.pipeline.taskResult :=
  ⟨rfl, C8_counter_accounting envBase pbC4 10 initState rfl⟩

/-- C9 counterexample: a looped task registering its result under the name
`item` re-creates an `item` key in its host's overlay after the mandatory
clear, so the overlay does contain an item value left by the task. -/
theorem C9_counterexample_register_item :
    taskItemReg.spec.loop = some [Value.num 1] ∧
    taskItemReg.spec.register = "item" ∧
    scopeGet ((executeTask envBase emptyStore taskItemReg).store.overlay "a") "item"
      = some (Value.strMap [("stdout", "hi"), ("stderr", "")]) :=
  ⟨rfl, rfl, rfl⟩

/-- C9 (amended): in every Task Runner trace each module invocation is
immediately followed by the `{item: nil}` clearing merge, whatever the
invocation's outcome; and provided the task does not register its result
under the name `item`, a store with no `item` keys has none after the
runner returns. -/
theorem C9_item_cleared_and_hygiene (env : Env) (st : Store) (task : Task)
    (hreg : task.spec.register ≠ "item") (hfree : itemFree st) :
    clearsFollowInvoc (executeTask env st task).events = true ∧
    itemFree (executeTask env st task).store :=
  ⟨executeTask_cfi env st task, executeTask_itemFree env st task hreg hfree⟩

/-- C9 witness: a looped task whose module fails on both items still clears
the item, and both invocations happen. -/
theorem C9_item_cleared_and_hygiene_witness :
    taskLoopFail.spec.register ≠ "item" ∧ itemFree emptyStore ∧
    (clearsFollowInvoc (executeTask envBase emptyStore taskLoopFail).events = true ∧
     itemFree (executeTask envBase emptyStore taskLoopFail).store) ∧
    moduleInvocations (executeTask envBase emptyStore taskLoopFail).events = 2 ∧
    itemClears (executeTask envBase emptyStore taskLoopFail).events = 2 :=
  ⟨by decide, fun _ => rfl,
   C9_item_cleared_and_hygiene envBase emptyStore taskLoopFail (by decide) (fun _ => rfl),
   rfl, rfl⟩

/-- C10: the Task Runner always returns a nil error with a terminal phase,
so the drive loop of `execBlock` performs exactly one runner invocation
(one new TaskCondition) for any positive fuel, and the restart count is
never incremented. -/
theorem C10_drive_loop_single_pass (env : Env) (fuel : Nat) (st : Store) (task : Task)
    (h : 1 ≤ fuel) :
    driveTask env fuel st task = driveTask env 1 st task ∧
    ∃ r : TaskRunResult, driveTask env fuel st task = some r ∧
      r.err = none ∧
      (r.task.status.phase = TaskPhase.success ∨
       r.task.status.phase = TaskPhase.ignored ∨
       r.task.status.phase = TaskPhase.failed) ∧
      r.task.status.conditions.length = task.status.conditions.length + 1 ∧
      r.task.status.restartCount = task.status.restartCount := by
  obtain ⟨f, rfl⟩ : ∃ f, fuel = f + 1 := ⟨fuel - 1, by omega⟩
  refine ⟨driveTask_eq_one env (f + 1) st task h, ?_⟩
  refine ⟨_, driveTask_succ env f st task, ?_⟩
  obtain ⟨h1, h2, h3, h4, h5⟩ := executeTask_spec env st
    { task with status := { task.status with phase := TaskPhase.running } }
  exact ⟨h1, h5, h4, h3⟩

/-- C10 witness: the drive loop at a concrete task and fuel. -/
theorem C10_drive_loop_single_pass_witness :
    1 ≤ 2 ∧
    (driveTask envBase 2 emptyStore taskReg = driveTask envBase 1 emptyStore taskReg ∧
     ∃ r : TaskRunResult, driveTask envBase 2 emptyStore taskReg = some r ∧
       r.err = none ∧
       (r.task.status.phase = TaskPhase.success ∨
        r.task.status.phase = TaskPhase.ignored ∨
        r.task.status.phase = TaskPhase.failed) ∧
       r.task.status.conditions.length = taskReg.status.conditions.length + 1 ∧
       r.task.status.restartCount = taskReg.status.restartCount) :=
  ⟨by omega, C10_drive_loop_single_pass envBase 2 emptyStore taskReg (by omega)⟩

end KubekeyExec
